import Mathlib

/-!
Shallow embedding of `causalflow/preprocessing.py` (class `DataProcessor`):
a pandas DataFrame model (typed columns, NaN cells), the pandas operations
the class uses (`fillna`, `mode`, `mean`, `get_dummies`, column projection,
`.values.astype(np.float64)`), and the two methods `fit_transform` /
`transform` under both imputation strategies.  The sklearn
`IterativeImputer` is an external collaborator and is modelled at its
interface only (`MiceLib` / `MiceModel`).
-/

namespace CausalFlow

/-- A scalar held by the imputer dictionary: a float (`none` models NaN) or
a string (categorical mode value). -/
inductive PyVal where
  | num (q : Option ℚ)
  | str (s : String)
deriving DecidableEq, Repr

/-- One DataFrame column: dtype numeric (kind `iuf`, cells possibly NaN) or
object/categorical (string cells, possibly NaN). -/
inductive ColData where
  | numeric (vals : List (Option ℚ))
  | categorical (vals : List (Option String))
deriving DecidableEq, Repr

def ColData.isNumeric : ColData → Bool
  | .numeric _ => true
  | .categorical _ => false

def ColData.length : ColData → Nat
  | .numeric vs => vs.length
  | .categorical vs => vs.length

/-- A pandas DataFrame: ordered, named columns. -/
structure Frame where
  cols : List (String × ColData)
deriving DecidableEq, Repr

instance {α : Type} [DecidableEq α] : DecidableEq (Except String α) := fun a b =>
  match a, b with
  | Except.ok x, Except.ok y =>
      if h : x = y then isTrue (by rw [h])
      else isFalse (by intro hc; cases hc; exact h rfl)
  | Except.error x, Except.error y =>
      if h : x = y then isTrue (by rw [h])
      else isFalse (by intro hc; cases hc; exact h rfl)
  | Except.ok _, Except.error _ => isFalse (by intro hc; cases hc)
  | Except.error _, Except.ok _ => isFalse (by intro hc; cases hc)

def Frame.columns (f : Frame) : List String := f.cols.map Prod.fst

/-- `df[name]` as a read (first matching column). -/
def Frame.lookup (f : Frame) (name : String) : Option ColData :=
  (f.cols.find? (fun c => c.1 == name)).map Prod.snd

/-- `df[name] = col`: overwrite in place when the name exists, otherwise
append a new column at the end. -/
def Frame.setCol (f : Frame) (name : String) (cd : ColData) : Frame :=
  if f.cols.any (fun c => c.1 == name) then
    ⟨f.cols.map (fun c => if c.1 == name then (name, cd) else c)⟩
  else ⟨f.cols ++ [(name, cd)]⟩

def Frame.nrows (f : Frame) : Nat :=
  match f.cols with
  | [] => 0
  | c :: _ => c.2.length

/-- `df[names]`: column selection in the given order. pandas resolves each
requested label against the column index: every column whose label equals
the requested name is returned (duplicate labels yield every match, in
frame order), and a name with no match raises KeyError. -/
def Frame.project (f : Frame) : List String → Except String Frame
  | [] => Except.ok (Frame.mk [])
  | n :: rest =>
    match f.cols.filter (fun c => c.1 == n) with
    | [] => Except.error "KeyError"
    | m :: ms =>
      match f.project rest with
      | Except.ok g => Except.ok (Frame.mk ((m :: ms) ++ g.cols))
      | Except.error e => Except.error e

/-- `df.values.astype(np.float64)`: the row-major cell matrix; raises when
an object column remains. -/
def Frame.valuesF64 (f : Frame) : Except String (List (List (Option ℚ))) :=
  if f.cols.all (fun c => c.2.isNumeric) then
    Except.ok ((List.range f.nrows).map (fun i =>
      f.cols.map (fun c => match c.2 with
        | ColData.numeric vs => vs.getD i none
        | ColData.categorical _ => none)))
  else Except.error "ValueError: could not convert string to float"

/-- `df.select_dtypes(include=['object','category']).columns.tolist()`. -/
def Frame.select_dtypes_object (f : Frame) : List String :=
  f.cols.filterMap (fun c => match c.2 with
    | ColData.categorical _ => some c.1
    | ColData.numeric _ => none)

/-- pandas `Series.mean()` with default `skipna=True`: the mean of the
observed cells, NaN when there are none. -/
def seriesMean (vs : List (Option ℚ)) : Option ℚ :=
  let obs := vs.filterMap id
  if obs.isEmpty then none else some (obs.sum / (obs.length : ℚ))

/-- Distinct values in first-appearance order. -/
def uniqueFirst (xs : List String) : List String :=
  xs.foldl (fun acc x => if x ∈ acc then acc else acc ++ [x]) []

/-- Code-point lexicographic comparison of character lists: the order
Python compares strings by. -/
def charLeB : List Char → List Char → Bool
  | [], _ => true
  | _ :: _, [] => false
  | c :: cs, d :: ds =>
    if c.toNat < d.toNat then true
    else if d.toNat < c.toNat then false
    else charLeB cs ds

/-- Python string order (code-point lexicographic): the order pandas sorts
category values and mode candidates in. -/
def strLe (a b : String) : Prop := charLeB a.data b.data = true

instance : DecidableRel strLe := fun a b => Bool.decEq (charLeB a.data b.data) true

theorem charLeB_total : ∀ a b, charLeB a b = true ∨ charLeB b a = true
  | [], _ => Or.inl rfl
  | _ :: _, [] => Or.inr rfl
  | c :: cs, d :: ds => by
    rcases Nat.lt_trichotomy c.toNat d.toNat with h | h | h
    · exact Or.inl (by simp [charLeB, h])
    · have hcd := charLeB_total cs ds
      rcases hcd with h2 | h2
      · exact Or.inl (by simp [charLeB, h, h2])
      · exact Or.inr (by simp [charLeB, h, h2])
    · exact Or.inr (by simp [charLeB, h])

theorem charLeB_trans : ∀ a b c, charLeB a b = true → charLeB b c = true →
    charLeB a c = true
  | [], _, _ => by intro _ _; rfl
  | _ :: _, [], _ => by intro h _; simp [charLeB] at h
  | _ :: _, _ :: _, [] => by intro _ h; simp [charLeB] at h
  | x :: xs, y :: ys, z :: zs => by
    intro h1 h2
    simp only [charLeB] at h1 h2 ⊢
    rcases Nat.lt_trichotomy x.toNat z.toNat with h | h | h
    · simp [h]
    · rcases Nat.lt_trichotomy x.toNat y.toNat with hxy | hxy | hxy
      · rcases Nat.lt_trichotomy y.toNat z.toNat with hyz | hyz | hyz
        · omega
        · omega
        · simp [show ¬ y.toNat < z.toNat by omega, show z.toNat < y.toNat from hyz] at h2
      · rcases Nat.lt_trichotomy y.toNat z.toNat with hyz | hyz | hyz
        · omega
        · simp only [show ¬ x.toNat < y.toNat by omega,
            show ¬ y.toNat < x.toNat by omega, if_false, ite_self] at h1
          simp only [show ¬ y.toNat < z.toNat by omega,
            show ¬ z.toNat < y.toNat by omega, if_false, ite_self] at h2
          simp only [show ¬ x.toNat < z.toNat by omega,
            show ¬ z.toNat < x.toNat by omega, if_false, ite_self]
          exact charLeB_trans xs ys zs h1 h2
        · simp [show ¬ y.toNat < z.toNat by omega, hyz] at h2
      · simp [show ¬ x.toNat < y.toNat by omega, hxy] at h1
    · rcases Nat.lt_trichotomy x.toNat y.toNat with hxy | hxy | hxy
      · rcases Nat.lt_trichotomy y.toNat z.toNat with hyz | hyz | hyz
        · omega
        · omega
        · simp [show ¬ y.toNat < z.toNat by omega, hyz] at h2
      · simp [show ¬ y.toNat < z.toNat by omega, show z.toNat < y.toNat by omega] at h2
      · simp [show ¬ x.toNat < y.toNat by omega, hxy] at h1

theorem charLeB_refl : ∀ a, charLeB a a = true
  | [] => rfl
  | c :: cs => by simp [charLeB, charLeB_refl cs]

instance : IsTotal String strLe := ⟨fun a b => charLeB_total a.data b.data⟩

instance : IsTrans String strLe :=
  ⟨fun a b c h1 h2 => charLeB_trans a.data b.data c.data h1 h2⟩

theorem strLe_refl (a : String) : strLe a a := charLeB_refl a.data

/-- Ascending sort on strings in Python string order. -/
def sortStr (xs : List String) : List String := List.insertionSort strLe xs

/-- The highest frequency among the observed values. -/
def maxCountOf (obs : List String) : Nat :=
  ((uniqueFirst obs).map (fun v => obs.count v)).foldl Nat.max 0

/-- The observed values of maximal frequency, in first-appearance order. -/
def modeCandidates (obs : List String) : List String :=
  (uniqueFirst obs).filter (fun v => obs.count v == maxCountOf obs)

/-- pandas `Series.mode()`: the observed values of maximal frequency,
returned sorted ascending (NaN cells dropped). -/
def seriesMode (vs : List (Option String)) : List String :=
  sortStr (modeCandidates (vs.filterMap id))

/-- `s.mode()[0] if not s.mode().empty else "unknown"`. -/
def modeOrUnknown (vs : List (Option String)) : String :=
  match seriesMode vs with
  | [] => "unknown"
  | v :: _ => v

/-- `Series.fillna(v)`.  Filling with NaN is a no-op on the missing cells;
a dtype-mismatched fill value does not occur in the modelled flows and
leaves the column unchanged. -/
def ColData.fillna : ColData → PyVal → ColData
  | ColData.numeric vs, PyVal.num q =>
      ColData.numeric (vs.map (fun c => match c with
        | some x => some x
        | none => q))
  | ColData.categorical vs, PyVal.str s =>
      ColData.categorical (vs.map (fun c => some (c.getD s)))
  | cd, _ => cd

/-- `pd.get_dummies(df, columns=cats)`: drop the listed columns, append one
0/1 indicator column per distinct observed value of each listed column
(values in ascending order), named `col_value`. -/
def get_dummies (f : Frame) (cats : List String) : Frame :=
  ⟨f.cols.filter (fun c => ¬ cats.contains c.1) ++
    cats.flatMap (fun name =>
      match f.lookup name with
      | some (ColData.categorical vs) =>
          (sortStr (uniqueFirst (vs.filterMap id))).map (fun v =>
            (name ++ "_" ++ v,
             ColData.numeric (vs.map (fun c =>
               some (if c = some v then (1 : ℚ) else 0)))))
      | _ => [])⟩

/-- The fitted iterative imputer kept by the processor: the post-encoding
training column names (sklearn `feature_names_in_`) and the learned fill
function. -/
structure MiceModel where
  feature_names_in_ : List String
  impute : List (List (Option ℚ)) → List (List ℚ)

/-- Interface of `IterativeImputer(random_state=42)` (sklearn is an
external collaborator; only its fit/transform surface is modelled):
`fit_transform` consumes the column names and the cell matrix and yields
the learned fill function together with the imputed training values. -/
structure MiceLib where
  fit_transform : List String → List (List (Option ℚ)) →
    (List (List (Option ℚ)) → List (List ℚ)) × List (List ℚ)

/-- `mice.transform(df)`: sklearn validates the feature names against the
fitted ones, then fills the matrix. -/
def MiceModel.transform (m : MiceModel) (names : List String)
    (x : List (List (Option ℚ))) : Except String (List (List ℚ)) :=
  if names = m.feature_names_in_ then Except.ok (m.impute x)
  else Except.error "ValueError: feature names mismatch"

/-- `pd.DataFrame(values, columns=names)` over a numeric value matrix. -/
def frameOfValues (names : List String) (vals : List (List ℚ)) : Frame :=
  ⟨names.enum.map (fun p =>
     (p.2, ColData.numeric (vals.map (fun r => r.get? p.1))))⟩

/-- The state of a `DataProcessor` instance. -/
structure DataProcessor where
  use_mice : Bool
  feature_names_in_ : Option (List String)
  feature_names_out_ : Option (List String)
  categorical_columns_ : List String
  imputers_ : List (String × PyVal)
  mice_imputer_ : Option MiceModel

/-- `DataProcessor(use_mice=...)`: the freshly constructed state. -/
def DataProcessor.init (use_mice : Bool) : DataProcessor :=
  ⟨use_mice, none, none, [], [], none⟩

/-- Python dict assignment `d[k] = v`: overwrite in place or insert at the
end (dicts preserve insertion order). -/
def dictSet (d : List (String × PyVal)) (k : String) (v : PyVal) :
    List (String × PyVal) :=
  if d.any (fun e => e.1 == k) then d.map (fun e => if e.1 == k then (k, v) else e)
  else d ++ [(k, v)]

/-- Python `d.get(k)` as an option. -/
def dictGet (d : List (String × PyVal)) (k : String) : Option PyVal :=
  (d.find? (fun e => e.1 == k)).map Prod.snd

/-- Body of the simple-imputation loop of `fit_transform` for one column:
mean fill for numeric dtype, mode fill (sentinel `"unknown"`) otherwise;
the computed fallback is recorded in the imputer dict. -/
def simpleImputeStep (st : Frame × List (String × PyVal)) (col : String) :
    Frame × List (String × PyVal) :=
  match st.1.lookup col with
  | some (ColData.numeric vs) =>
      let mean_val := seriesMean vs
      (st.1.setCol col ((ColData.numeric vs).fillna (PyVal.num mean_val)),
       dictSet st.2 col (PyVal.num mean_val))
  | some (ColData.categorical vs) =>
      let mode_val := modeOrUnknown vs
      (st.1.setCol col ((ColData.categorical vs).fillna (PyVal.str mode_val)),
       dictSet st.2 col (PyVal.str mode_val))
  | none => st

/-- Body of the categorical pre-imputation loop of the mice branch of
`fit_transform` (the loop only visits columns of object dtype). -/
def miceCatFitStep (st : Frame × List (String × PyVal)) (col : String) :
    Frame × List (String × PyVal) :=
  match st.1.lookup col with
  | some (ColData.categorical vs) =>
      let mode_val := modeOrUnknown vs
      (st.1.setCol col ((ColData.categorical vs).fillna (PyVal.str mode_val)),
       dictSet st.2 col (PyVal.str mode_val))
  | _ => st

/-- `DataProcessor.fit_transform(df)` (the `pd.DataFrame(df)` coercion for
non-frame input is the identity on frames and outside the model). -/
def DataProcessor.fit_transform (lib : MiceLib) (p : DataProcessor) (df : Frame) :
    Except String (DataProcessor × List (List (Option ℚ))) := do
  let feature_names_in_ := df.columns
  let processed := df
  let categorical_columns_ := df.select_dtypes_object
  if p.use_mice then
    let st := categorical_columns_.foldl miceCatFitStep (processed, p.imputers_)
    let imputers_ := st.2
    let processed := if categorical_columns_.isEmpty then st.1
      else get_dummies st.1 categorical_columns_
    let x ← processed.valuesF64
    let ft := lib.fit_transform processed.columns x
    let mice_imputer_ := MiceModel.mk processed.columns ft.1
    let processed2 := frameOfValues processed.columns ft.2
    let feature_names_out_ := processed2.columns
    let m ← processed2.valuesF64
    Except.ok ({ use_mice := p.use_mice,
                 feature_names_in_ := some feature_names_in_,
                 feature_names_out_ := some feature_names_out_,
                 categorical_columns_ := categorical_columns_,
                 imputers_ := imputers_,
                 mice_imputer_ := some mice_imputer_ }, m)
  else
    let st := processed.columns.foldl simpleImputeStep (processed, p.imputers_)
    let imputers_ := st.2
    let processed := if categorical_columns_.isEmpty then st.1
      else get_dummies st.1 categorical_columns_
    let feature_names_out_ := processed.columns
    let m ← processed.valuesF64
    Except.ok ({ use_mice := p.use_mice,
                 feature_names_in_ := some feature_names_in_,
                 feature_names_out_ := some feature_names_out_,
                 categorical_columns_ := categorical_columns_,
                 imputers_ := imputers_,
                 mice_imputer_ := p.mice_imputer_ }, m)

/-- The recorded-imputer fill loop of `transform` (simple branch):
`processed_df[col] = processed_df[col].fillna(val)` for each dict entry in
order; reading an absent column raises KeyError. -/
def fillFromImputers : List (String × PyVal) → Frame → Except String Frame
  | [], fr => Except.ok fr
  | e :: rest, fr =>
    match fr.lookup e.1 with
    | some cd => fillFromImputers rest (fr.setCol e.1 (cd.fillna e.2))
    | none => Except.error "KeyError"

/-- The categorical fill loop of `transform` (mice branch): the fill value
is `imputers_.get(col, "unknown")`. -/
def fillCatsFromImputers (imps : List (String × PyVal)) :
    List String → Frame → Except String Frame
  | [], fr => Except.ok fr
  | col :: rest, fr =>
    match fr.lookup col with
    | some cd =>
        fillCatsFromImputers imps rest
          (fr.setCol col (cd.fillna ((dictGet imps col).getD (PyVal.str "unknown"))))
    | none => Except.error "KeyError"

/-- The simple-branch alignment block of `transform`: synthesize a zero
column for every recorded output name that is absent, then project to the
recorded order. -/
def alignToSchema (outs : List String) (d : Frame) : Except String Frame :=
  let d2 := outs.foldl (fun dd c =>
      if dd.cols.any (fun e => e.1 == c) then dd
      else dd.setCol c (ColData.numeric (List.replicate dd.nrows (some 0)))) d
  d2.project outs

/-- The mice-branch alignment block of `transform`: synthesize the fitted
model's missing input columns as zeros, then project to its recorded
order (the set-difference iteration order is unobservable after the
projection and is modelled in list order). -/
def alignToMice (names : List String) (d : Frame) : Except String Frame :=
  let missing := names.filter (fun c => ¬ d.cols.any (fun e => e.1 == c))
  let d2 := missing.foldl (fun dd c =>
      dd.setCol c (ColData.numeric (List.replicate dd.nrows (some 0)))) d
  d2.project names

/-- `DataProcessor.transform(df)` up to (but not including) the final
`.values.astype(np.float64)` conversion on the last line. -/
def DataProcessor.transformFrame (p : DataProcessor) (df : Frame) :
    Except String Frame := do
  let processed := df
  if p.use_mice then
    let processed ← fillCatsFromImputers p.imputers_ p.categorical_columns_ processed
    let processed ← if p.categorical_columns_.isEmpty then Except.ok processed
      else do
        let d := get_dummies processed p.categorical_columns_
        match p.mice_imputer_ with
        | none => Except.error "AttributeError: NoneType"
        | some m => alignToMice m.feature_names_in_ d
    match p.mice_imputer_ with
    | none => Except.error "AttributeError: NoneType"
    | some m => do
        let x ← processed.valuesF64
        let vals ← m.transform processed.columns x
        Except.ok (frameOfValues processed.columns vals)
  else
    let processed ← fillFromImputers p.imputers_ processed
    if p.categorical_columns_.isEmpty then Except.ok processed
    else
      let d := get_dummies processed p.categorical_columns_
      match p.feature_names_out_ with
      | none => Except.error "TypeError: NoneType is not iterable"
      | some outs => alignToSchema outs d

/-- `DataProcessor.transform(df)`: the aligned frame's cells as a float
matrix. -/
def DataProcessor.transform (p : DataProcessor) (df : Frame) :
    Except String (List (List (Option ℚ))) := do
  let fr ← p.transformFrame df
  fr.valuesF64

/-- A concrete inhabitant of the external imputer interface, used by the
closed examples and witnesses: fill every missing cell with 0. -/
def zeroFillLib : MiceLib :=
  ⟨fun _ x => (fun y => y.map (fun r => r.map (fun c => c.getD 0)),
               x.map (fun r => r.map (fun c => c.getD 0)))⟩

/-- The training table `{x1:[1,2,nan,4,5]}`. -/
def dfC9 : Frame :=
  ⟨[("x1", ColData.numeric [some 1, some 2, none, some 4, some 5])]⟩

/-- Modelled from the claim's words, for comparison with the code: the
number of numeric columns plus the number of distinct observed categorical
values across all categorical columns. -/
def specClaimedWidth (f : Frame) : Nat :=
  (f.cols.filter (fun c => c.2.isNumeric)).length +
  (f.cols.map (fun c => match c.2 with
     | ColData.categorical vs => (uniqueFirst (vs.filterMap id)).length
     | ColData.numeric _ => 0)).sum

/-- Modelled from the spec's words, for comparison with the code: the most
frequent observed value with ties broken by first-encountered-in-scan
order, sentinel `"unknown"` when nothing is observed. -/
def specFirstSeenMode (vs : List (Option String)) : String :=
  let obs := vs.filterMap id
  let u := uniqueFirst obs
  let mc := (u.map (fun v => obs.count v)).foldl Nat.max 0
  match u.filter (fun v => obs.count v == mc) with
  | [] => "unknown"
  | v :: _ => v

/-- The categorical training table `{c:["A","B"]}` of the witnesses. -/
def dfFitW : Frame := ⟨[("c", ColData.categorical [some "A", some "B"])]⟩

/-- The state produced by fitting the simple strategy on `dfFitW`. -/
def pW : DataProcessor :=
  { use_mice := false, feature_names_in_ := some ["c"],
    feature_names_out_ := some ["c_A", "c_B"], categorical_columns_ := ["c"],
    imputers_ := [("c", PyVal.str "A")], mice_imputer_ := none }

/-- A table whose two categorical columns generate the same dummy name
`c_A_X` (from `c` = "A_X" and from `c_A` = "X"). -/
def dfC3X : Frame :=
  ⟨[("c", ColData.categorical [some "A_X"]),
    ("c_A", ColData.categorical [some "X"])]⟩

/-- The per-column result of the simple-imputation loop body. -/
def simpleFillCol : ColData → ColData
  | ColData.numeric vs => (ColData.numeric vs).fillna (PyVal.num (seriesMean vs))
  | ColData.categorical vs => (ColData.categorical vs).fillna (PyVal.str (modeOrUnknown vs))

/-- The fallback value the simple-imputation loop records per column. -/
def simpleImputerOf : ColData → PyVal
  | ColData.numeric vs => PyVal.num (seriesMean vs)
  | ColData.categorical vs => PyVal.str (modeOrUnknown vs)

/-- The per-column result of the mice-branch categorical fill loop
(numeric columns are untouched by that loop). -/
def catFillCol : ColData → ColData
  | ColData.categorical vs => (ColData.categorical vs).fillna (PyVal.str (modeOrUnknown vs))
  | cd => cd

/-- The fallback the mice-branch categorical loop records (none for a
numeric column, which that loop never visits). -/
def catImputerOf : ColData → Option PyVal
  | ColData.categorical vs => some (PyVal.str (modeOrUnknown vs))
  | _ => none

/-- The whole training frame after the simple-imputation loop. -/
def simpleFilled (f : Frame) : Frame :=
  ⟨f.cols.map (fun c => (c.1, simpleFillCol c.2))⟩

/-- The imputer dict recorded by the simple-imputation loop. -/
def simpleImputers (f : Frame) : List (String × PyVal) :=
  f.cols.map (fun c => (c.1, simpleImputerOf c.2))

/-- The whole training frame after the mice-branch categorical loop. -/
def catFilled (f : Frame) : Frame :=
  ⟨f.cols.map (fun c => (c.1, catFillCol c.2))⟩

/-- The imputer dict recorded by the mice-branch categorical loop. -/
def catImputers (f : Frame) : List (String × PyVal) :=
  f.cols.filterMap (fun c => (catImputerOf c.2).map (fun v => (c.1, v)))

/-- The successful payload of `Frame.valuesF64`. -/
def valuesRows (f : Frame) : List (List (Option ℚ)) :=
  (List.range f.nrows).map (fun i =>
    f.cols.map (fun c => match c.2 with
      | ColData.numeric vs => vs.getD i none
      | ColData.categorical _ => none))

/-- The encoded training frame of the simple strategy, whose columns become
the output schema. -/
def fitEncodedSimple (f : Frame) : Frame :=
  if f.select_dtypes_object.isEmpty then simpleFilled f
  else get_dummies (simpleFilled f) f.select_dtypes_object

/-- The encoded training frame of the mice strategy (categorical mode fill
followed by one-hot encoding), fed to the iterative imputer. -/
def fitEncodedMice (f : Frame) : Frame :=
  if f.select_dtypes_object.isEmpty then catFilled f
  else get_dummies (catFilled f) f.select_dtypes_object

/-- Modelled from the amended claim's words: the number of numeric columns
plus, per categorical column, the number of distinct observed values,
counting 1 for a categorical column with no observed values. -/
def specOutputWidth (f : Frame) : Nat :=
  (f.cols.filter (fun c => c.2.isNumeric)).length +
  (f.cols.map (fun c => match c.2 with
     | ColData.categorical vs =>
         if (vs.filterMap id).isEmpty then 1 else (uniqueFirst (vs.filterMap id)).length
     | ColData.numeric _ => 0)).sum

/-- The training table of the concrete C4 example. -/
def dfC4 : Frame :=
  ⟨[("feature1", ColData.numeric [some 10, some 20, some 30]),
    ("category1", ColData.categorical [some "A", some "B", some "A"])]⟩

/-- Python object references for DataFrames: a heap is a list of frames and
a reference an index; `df.copy()`, `pd.get_dummies(...)` and
`pd.DataFrame(...)` allocate a fresh cell. -/
def heapAlloc (h : List Frame) (f : Frame) : List Frame × Nat :=
  (h ++ [f], h.length)

/-- The in-place fit imputation loop (`processed_df[col] = ...` once per
column), writing every column update through the given reference. -/
def heapFitLoop
    (step : Frame × List (String × PyVal) → String → Frame × List (String × PyVal)) :
    List String → List Frame → Nat → List (String × PyVal) →
    List Frame × List (String × PyVal)
  | [], h, _, imps => (h, imps)
  | c :: rest, h, r, imps =>
    match h.get? r with
    | none => (h, imps)
    | some fr =>
      let st := step (fr, imps) c
      heapFitLoop step rest (h.set r st.1) r st.2

/-- transform's simple-branch fill loop, writing through the reference. -/
def fillFromImputersH : List (String × PyVal) → List Frame → Nat →
    List Frame × Except String Unit
  | [], h, _ => (h, Except.ok ())
  | e :: rest, h, r =>
    match h.get? r with
    | none => (h, Except.error "KeyError")
    | some fr =>
      match fr.lookup e.1 with
      | some cd =>
          fillFromImputersH rest (h.set r (fr.setCol e.1 (cd.fillna e.2))) r
      | none => (h, Except.error "KeyError")

/-- transform's mice-branch categorical fill loop, writing through the
reference. -/
def fillCatsFromImputersH (imps : List (String × PyVal)) :
    List String → List Frame → Nat → List Frame × Except String Unit
  | [], h, _ => (h, Except.ok ())
  | col :: rest, h, r =>
    match h.get? r with
    | none => (h, Except.error "KeyError")
    | some fr =>
      match fr.lookup col with
      | some cd =>
          fillCatsFromImputersH imps rest
            (h.set r (fr.setCol col
              (cd.fillna ((dictGet imps col).getD (PyVal.str "unknown"))))) r
      | none => (h, Except.error "KeyError")

/-- The `processed_df[col] = 0` synthesis writes of the simple alignment
block (membership re-tested per column), through the reference. -/
def zeroFillLoopH : List String → List Frame → Nat → List Frame
  | [], h, _ => h
  | c :: rest, h, r =>
    match h.get? r with
    | none => zeroFillLoopH rest h r
    | some dd =>
      if dd.cols.any (fun e => e.1 == c) then zeroFillLoopH rest h r
      else zeroFillLoopH rest
        (h.set r (dd.setCol c (ColData.numeric
          (List.replicate dd.nrows (some 0))))) r

/-- The `processed_df[col] = 0` writes for a precomputed missing set. -/
def zeroFillWritesH : List String → List Frame → Nat → List Frame
  | [], h, _ => h
  | c :: rest, h, r =>
    match h.get? r with
    | none => zeroFillWritesH rest h r
    | some dd =>
      zeroFillWritesH rest
        (h.set r (dd.setCol c (ColData.numeric
          (List.replicate dd.nrows (some 0))))) r

/-- The mice alignment block's missing-column writes: the missing set is
computed once from the current frame, then written column by column. -/
def missingZeroFillH (names : List String) (h : List Frame) (r : Nat) :
    List Frame :=
  match h.get? r with
  | none => h
  | some d =>
    zeroFillWritesH (names.filter (fun c =>
      ¬ d.cols.any (fun e => e.1 == c))) h r

/-- The tail of the mice transform path: read the frame, run the fitted
imputer, allocate the rebuilt `pd.DataFrame(values, columns)` and read its
cells. -/
def miceTailH (mm : MiceModel) (h : List Frame) (r : Nat) :
    List Frame × Except String (List (List (Option ℚ))) :=
  match h.get? r with
  | none => (h, Except.error "KeyError")
  | some processed =>
    match processed.valuesF64 with
    | Except.error e => (h, Except.error e)
    | Except.ok x =>
      match mm.transform processed.columns x with
      | Except.error e => (h, Except.error e)
      | Except.ok vals =>
        let a := heapAlloc h (frameOfValues processed.columns vals)
        match a.1.get? a.2 with
        | none => (a.1, Except.error "KeyError")
        | some fin =>
          match fin.valuesF64 with
          | Except.error e => (a.1, Except.error e)
          | Except.ok m => (a.1, Except.ok m)

/-- The tail of the mice fit path: fit the external imputer on the encoded
frame, allocate the rebuilt `pd.DataFrame`, and read the result. -/
def fitMiceTailH (lib : MiceLib) (p : DataProcessor)
    (fin cats : List String) (imps : List (String × PyVal))
    (h : List Frame) (enc : Frame) :
    List Frame × Except String (DataProcessor × List (List (Option ℚ))) :=
  match enc.valuesF64 with
  | Except.error e => (h, Except.error e)
  | Except.ok x =>
    let ft := lib.fit_transform enc.columns x
    let a := heapAlloc h (frameOfValues enc.columns ft.2)
    match a.1.get? a.2 with
    | none => (a.1, Except.error "KeyError")
    | some processed2 =>
      match processed2.valuesF64 with
      | Except.error e => (a.1, Except.error e)
      | Except.ok m =>
        (a.1, Except.ok
          ({ use_mice := p.use_mice,
             feature_names_in_ := some fin,
             feature_names_out_ := some processed2.columns,
             categorical_columns_ := cats,
             imputers_ := imps,
             mice_imputer_ := some (MiceModel.mk enc.columns ft.1) }, m))

/-- `DataProcessor.fit_transform(df)` with the heap made explicit: the
method copies its argument (a fresh allocation) and every in-place column
write goes through the copy's reference; the heap after the call is
returned alongside the result. -/
def DataProcessor.fit_transform_heap (lib : MiceLib) (p : DataProcessor)
    (h : List Frame) (dfRef : Nat) :
    List Frame × Except String (DataProcessor × List (List (Option ℚ))) :=
  match h.get? dfRef with
  | none => (h, Except.error "TypeError: not a DataFrame")
  | some df =>
    let a := heapAlloc h df
    let cats := df.select_dtypes_object
    if p.use_mice then
      let st := heapFitLoop miceCatFitStep cats a.1 a.2 p.imputers_
      match st.1.get? a.2 with
      | none => (st.1, Except.error "KeyError")
      | some filled =>
        if cats.isEmpty then
          fitMiceTailH lib p df.columns cats st.2 st.1 filled
        else
          let a2 := heapAlloc st.1 (get_dummies filled cats)
          match a2.1.get? a2.2 with
          | none => (a2.1, Except.error "KeyError")
          | some enc => fitMiceTailH lib p df.columns cats st.2 a2.1 enc
    else
      let st := heapFitLoop simpleImputeStep df.columns a.1 a.2 p.imputers_
      match st.1.get? a.2 with
      | none => (st.1, Except.error "KeyError")
      | some filled =>
        if cats.isEmpty then
          match filled.valuesF64 with
          | Except.error e => (st.1, Except.error e)
          | Except.ok m =>
            (st.1, Except.ok
              ({ use_mice := p.use_mice,
                 feature_names_in_ := some df.columns,
                 feature_names_out_ := some filled.columns,
                 categorical_columns_ := cats,
                 imputers_ := st.2,
                 mice_imputer_ := p.mice_imputer_ }, m))
        else
          let a2 := heapAlloc st.1 (get_dummies filled cats)
          match a2.1.get? a2.2 with
          | none => (a2.1, Except.error "KeyError")
          | some enc =>
            match enc.valuesF64 with
            | Except.error e => (a2.1, Except.error e)
            | Except.ok m =>
              (a2.1, Except.ok
                ({ use_mice := p.use_mice,
                   feature_names_in_ := some df.columns,
                   feature_names_out_ := some enc.columns,
                   categorical_columns_ := cats,
                   imputers_ := st.2,
                   mice_imputer_ := p.mice_imputer_ }, m))

/-- `DataProcessor.transform(df)` with the heap made explicit, mirroring
the source statement by statement: copy, in-place fills through the copy's
reference, fresh allocations for `pd.get_dummies` / projection /
`pd.DataFrame` rebindings, and zero-column writes through those fresh
references only. -/
def DataProcessor.transform_heap (p : DataProcessor) (h : List Frame)
    (dfRef : Nat) :
    List Frame × Except String (List (List (Option ℚ))) :=
  match h.get? dfRef with
  | none => (h, Except.error "TypeError: not a DataFrame")
  | some df =>
    let a := heapAlloc h df
    if p.use_mice then
      match fillCatsFromImputersH p.imputers_ p.categorical_columns_ a.1 a.2 with
      | (h2, Except.error e) => (h2, Except.error e)
      | (h2, Except.ok _) =>
        if p.categorical_columns_.isEmpty then
          match p.mice_imputer_ with
          | none => (h2, Except.error "AttributeError: NoneType")
          | some mm => miceTailH mm h2 a.2
        else
          match h2.get? a.2 with
          | none => (h2, Except.error "KeyError")
          | some processed =>
            let a2 := heapAlloc h2 (get_dummies processed p.categorical_columns_)
            match p.mice_imputer_ with
            | none => (a2.1, Except.error "AttributeError: NoneType")
            | some mm =>
              let h4 := missingZeroFillH mm.feature_names_in_ a2.1 a2.2
              match h4.get? a2.2 with
              | none => (h4, Except.error "KeyError")
              | some d2 =>
                match d2.project mm.feature_names_in_ with
                | Except.error e => (h4, Except.error e)
                | Except.ok proj =>
                  let a3 := heapAlloc h4 proj
                  miceTailH mm a3.1 a3.2
    else
      match fillFromImputersH p.imputers_ a.1 a.2 with
      | (h2, Except.error e) => (h2, Except.error e)
      | (h2, Except.ok _) =>
        match h2.get? a.2 with
        | none => (h2, Except.error "KeyError")
        | some processed =>
          if p.categorical_columns_.isEmpty then (h2, processed.valuesF64)
          else
            let a2 := heapAlloc h2 (get_dummies processed p.categorical_columns_)
            match p.feature_names_out_ with
            | none => (a2.1, Except.error "TypeError: NoneType is not iterable")
            | some outs =>
              let h4 := zeroFillLoopH outs a2.1 a2.2
              match h4.get? a2.2 with
              | none => (h4, Except.error "KeyError")
              | some d2 =>
                match d2.project outs with
                | Except.error e => (h4, Except.error e)
                | Except.ok proj =>
                  let a3 := heapAlloc h4 proj
                  match a3.1.get? a3.2 with
                  | none => (a3.1, Except.error "KeyError")
                  | some fin => (a3.1, fin.valuesF64)

theorem except_bind_ok {a : Type} {b : Type} (x : a) (f : a → Except String b) :
    (Except.ok x >>= f : Except String b) = f x := rfl

theorem except_bind_error {a : Type} {b : Type} (e : String) (f : a → Except String b) :
    (Except.error e >>= f : Except String b) = Except.error e := rfl

/-- Columns of a frame rebuilt from a value matrix are the given names. -/
theorem frameOfValues_columns (names : List String) (vals : List (List ℚ)) :
    (frameOfValues names vals).columns = names := by
  simp [frameOfValues, Frame.columns, List.map_map]
  exact List.enum_map_snd names

theorem Frame.eta (f : Frame) : Frame.mk f.cols = f := by cases f; rfl

theorem find_fst_eq_of_nodup {β : Type} (l : List (String × β)) (c : String × β)
    (hc : c ∈ l) (hnd : (l.map Prod.fst).Nodup) :
    l.find? (fun e => e.1 == c.1) = some c := by
  induction l with
  | nil => cases hc
  | cons d ds ih =>
    rcases List.mem_cons.mp hc with hc | hc
    · subst hc
      simp [List.find?]
    · have hd : d.1 ≠ c.1 := by
        intro he
        have hmem : c.1 ∈ ds.map Prod.fst := List.mem_map.mpr ⟨c, hc, rfl⟩
        rw [List.map_cons] at hnd
        exact (List.nodup_cons.mp hnd).1 (he ▸ hmem)
      simp only [List.find?, show (d.1 == c.1) = false from beq_eq_false_iff_ne.mpr hd]
      exact ih hc (by rw [List.map_cons] at hnd; exact (List.nodup_cons.mp hnd).2)

/-- Under unique column names, looking up a column's own name yields its
data. -/
theorem Frame.lookup_of_mem_nodup (f : Frame) (c : String × ColData)
    (hc : c ∈ f.cols) (hnd : f.columns.Nodup) : f.lookup c.1 = some c.2 := by
  unfold Frame.lookup
  rw [find_fst_eq_of_nodup f.cols c hc hnd]
  rfl

theorem Frame.lookup_eq_some_of_mem_columns (f : Frame) (n : String)
    (h : n ∈ f.columns) : ∃ cd, f.lookup n = some cd := by
  unfold Frame.columns at h
  rcases List.mem_map.mp h with ⟨c, hc, hfst⟩
  subst hfst
  have hs : (f.cols.find? (fun e => e.1 == c.1)).isSome := by
    rw [List.find?_isSome]
    exact ⟨c, hc, by simp⟩
  rcases Option.isSome_iff_exists.mp hs with ⟨e, he⟩
  exact ⟨e.2, by unfold Frame.lookup; rw [he]; rfl⟩

theorem Frame.mem_columns_of_lookup (f : Frame) (n : String) (cd : ColData)
    (h : f.lookup n = some cd) : n ∈ f.columns := by
  unfold Frame.lookup at h
  cases hf : f.cols.find? (fun e => e.1 == n) with
  | none => rw [hf] at h; cases h
  | some e =>
    rw [hf] at h
    have hp := List.find?_some hf
    have hmem := List.mem_of_find?_eq_some hf
    have : e.1 = n := beq_iff_eq.mp hp
    exact this ▸ List.mem_map.mpr ⟨e, hmem, rfl⟩

theorem Frame.lookup_setCol_ne (f : Frame) (n m : String) (cd : ColData)
    (h : m ≠ n) : (f.setCol n cd).lookup m = f.lookup m := by
  unfold Frame.setCol Frame.lookup
  split
  · simp only
    rw [List.find?_map]
    have hpg : ((fun (e : String × ColData) => e.1 == m) ∘
        (fun c => if c.1 == n then (n, cd) else c)) =
        (fun (e : String × ColData) => e.1 == m) := by
      funext c
      simp only [Function.comp]
      by_cases hc : c.1 = n
      · rw [if_pos (beq_iff_eq.mpr hc)]
        simp only
        rw [show (n == m) = false from beq_eq_false_iff_ne.mpr (Ne.symm h), hc,
          show (n == m) = false from beq_eq_false_iff_ne.mpr (Ne.symm h)]
      · rw [if_neg (by simpa using hc)]
    rw [hpg]
    cases hf : List.find? (fun (e : String × ColData) => e.1 == m) f.cols with
    | none => rfl
    | some e =>
      have hpe := List.find?_some hf
      have hen : e.1 ≠ n := by
        intro he
        exact h (by rw [← beq_iff_eq.mp hpe, he])
      simp [Option.map_map, Function.comp, if_neg (by simpa using hen)]
  · rw [List.find?_append]
    cases hf : f.cols.find? (fun e => e.1 == m) with
    | some c => simp
    | none =>
      simp only [Option.none_or]
      simp [List.find?, show (n == m) = false from beq_eq_false_iff_ne.mpr (Ne.symm h)]

theorem Frame.setCol_cols_of_mem (f : Frame) (n : String) (cd : ColData)
    (h : n ∈ f.columns) :
    (f.setCol n cd).cols = f.cols.map (fun c => if c.1 == n then (n, cd) else c) := by
  unfold Frame.setCol
  rw [if_pos]
  rcases List.mem_map.mp h with ⟨c, hc, hfst⟩
  exact List.any_eq_true.mpr ⟨c, hc, by simp [hfst]⟩

theorem Frame.columns_setCol_of_mem (f : Frame) (n : String) (cd : ColData)
    (h : n ∈ f.columns) : (f.setCol n cd).columns = f.columns := by
  unfold Frame.columns
  rw [Frame.setCol_cols_of_mem f n cd h, List.map_map]
  apply List.map_congr_left
  intro c _
  simp only [Function.comp]
  by_cases hc : c.1 = n
  · rw [if_pos (beq_iff_eq.mpr hc)]
    exact hc.symm
  · rw [if_neg (by simpa using hc)]

theorem dictSet_append_of_fresh (d : List (String × PyVal)) (k : String) (v : PyVal)
    (h : ∀ e ∈ d, e.1 ≠ k) : dictSet d k v = d ++ [(k, v)] := by
  unfold dictSet
  rw [if_neg]
  intro hc
  rcases List.any_eq_true.mp hc with ⟨e, he, hek⟩
  exact h e he (beq_iff_eq.mp hek)

theorem filterMap_congr_some {α β : Type} (l : List α) (g : α → Option β) (h : α → β)
    (hgh : ∀ a ∈ l, g a = some (h a)) : l.filterMap g = l.map h := by
  induction l with
  | nil => rfl
  | cons a as ih =>
    rw [List.filterMap_cons, hgh a (List.mem_cons_self a as), List.map_cons,
      ih (fun b hb => hgh b (List.mem_cons_of_mem a hb))]

theorem simpleImputeStep_of_lookup (f : Frame) (imps : List (String × PyVal))
    (n : String) (cd : ColData) (h : f.lookup n = some cd) :
    simpleImputeStep (f, imps) n =
    (f.setCol n (simpleFillCol cd), dictSet imps n (simpleImputerOf cd)) := by
  cases cd <;> simp [simpleImputeStep, h, simpleFillCol, simpleImputerOf]

theorem miceCatFitStep_of_lookup_cat (f : Frame) (imps : List (String × PyVal))
    (n : String) (vs : List (Option String))
    (h : f.lookup n = some (ColData.categorical vs)) :
    miceCatFitStep (f, imps) n =
    (f.setCol n (catFillCol (ColData.categorical vs)),
     dictSet imps n (PyVal.str (modeOrUnknown vs))) := by
  simp [miceCatFitStep, h, catFillCol]

theorem miceCatFitStep_of_lookup_num (f : Frame) (imps : List (String × PyVal))
    (n : String) (vs : List (Option ℚ))
    (h : f.lookup n = some (ColData.numeric vs)) :
    miceCatFitStep (f, imps) n = (f, imps) := by
  simp [miceCatFitStep, h]

theorem list_filterMap_congr {α β : Type} (l : List α) (g h : α → Option β)
    (hgh : ∀ a ∈ l, g a = h a) : l.filterMap g = l.filterMap h := by
  induction l with
  | nil => rfl
  | cons a as ih =>
    rw [List.filterMap_cons, List.filterMap_cons, hgh a (List.mem_cons_self a as),
      ih (fun b hb => hgh b (List.mem_cons_of_mem a hb))]

/-- Characterization of the simple-imputation loop of `fit_transform` run
over a duplicate-free list of present column names: each named column is
fillna-ed with its own statistic, and the statistics are appended to the
imputer dict in loop order. -/
theorem foldl_simpleImputeStep_strong (names : List String) (f : Frame)
    (imps0 : List (String × PyVal)) (hnd : names.Nodup)
    (hsub : ∀ n ∈ names, n ∈ f.columns) (hfnd : f.columns.Nodup)
    (hdisj : ∀ e ∈ imps0, e.1 ∉ names) :
    names.foldl simpleImputeStep (f, imps0) =
    (⟨f.cols.map (fun c => if c.1 ∈ names then (c.1, simpleFillCol c.2) else c)⟩,
     imps0 ++ names.filterMap (fun n =>
       (f.lookup n).map (fun cd => (n, simpleImputerOf cd)))) := by
  induction names generalizing f imps0 with
  | nil =>
    simp only [List.foldl_nil, List.filterMap_nil, List.append_nil]
    have hid : f.cols.map (fun c =>
        if c.1 ∈ ([] : List String) then (c.1, simpleFillCol c.2) else c) = f.cols := by
      have hp : ∀ c ∈ f.cols, (if c.1 ∈ ([] : List String)
          then (c.1, simpleFillCol c.2) else c) = id c := by
        intro c _
        rw [if_neg (List.not_mem_nil c.1)]
        rfl
      rw [List.map_congr_left hp, List.map_id]
    rw [hid, Frame.eta]
  | cons n ns ih =>
    have hmemn : n ∈ f.columns := hsub n (List.mem_cons_self n ns)
    obtain ⟨cd, hcd⟩ := Frame.lookup_eq_some_of_mem_columns f n hmemn
    have hnd2 := List.nodup_cons.mp hnd
    rw [List.foldl_cons, simpleImputeStep_of_lookup f imps0 n cd hcd,
      dictSet_append_of_fresh _ _ _ (fun e he hek =>
        hdisj e he (hek ▸ List.mem_cons_self n ns))]
    have hcols' : (f.setCol n (simpleFillCol cd)).columns = f.columns :=
      Frame.columns_setCol_of_mem f n _ hmemn
    rw [ih (f.setCol n (simpleFillCol cd)) (imps0 ++ [(n, simpleImputerOf cd)]) hnd2.2
      (fun m hm => hcols' ▸ hsub m (List.mem_cons_of_mem n hm))
      (hcols' ▸ hfnd)
      (fun e he => by
        rcases List.mem_append.mp he with he | he
        · exact fun hc => hdisj e he (List.mem_cons_of_mem n hc)
        · rw [List.mem_singleton] at he
          subst he
          exact hnd2.1)]
    have hframe : (f.setCol n (simpleFillCol cd)).cols.map
        (fun c => if c.1 ∈ ns then (c.1, simpleFillCol c.2) else c) =
        f.cols.map (fun c => if c.1 ∈ n :: ns then (c.1, simpleFillCol c.2) else c) := by
      rw [Frame.setCol_cols_of_mem f n _ hmemn, List.map_map]
      apply List.map_congr_left
      intro c hc
      simp only [Function.comp]
      by_cases hcn : c.1 = n
      · have hce : f.lookup c.1 = some c.2 := Frame.lookup_of_mem_nodup f c hc hfnd
        have hcd2 : cd = c.2 := by
          rw [hcn] at hce
          rw [hce] at hcd
          exact (Option.some.inj hcd).symm
        simp [hcn, hnd2.1, hcd2]
      · by_cases hcns : c.1 ∈ ns
        · simp [hcn, hcns]
        · simp [hcn, hcns]
    have himps : (imps0 ++ [(n, simpleImputerOf cd)]) ++ ns.filterMap (fun m =>
        ((f.setCol n (simpleFillCol cd)).lookup m).map
          (fun cd2 => (m, simpleImputerOf cd2))) =
        imps0 ++ (n :: ns).filterMap (fun m =>
          (f.lookup m).map (fun cd2 => (m, simpleImputerOf cd2))) := by
      rw [List.filterMap_cons, hcd]
      rw [List.append_assoc, List.singleton_append]
      simp only [Option.map_some']
      congr 2
      apply list_filterMap_congr
      intro m hm
      rw [Frame.lookup_setCol_ne f n m _ (fun he => hnd2.1 (he ▸ hm))]
    rw [hframe, himps]

/-- Characterization of the mice-branch categorical pre-imputation loop of
`fit_transform`: each named categorical column is mode-filled, and the
modes are appended to the imputer dict in loop order. -/
theorem foldl_miceCatFitStep_strong (names : List String) (f : Frame)
    (imps0 : List (String × PyVal)) (hnd : names.Nodup)
    (hsub : ∀ n ∈ names, n ∈ f.columns) (hfnd : f.columns.Nodup)
    (hdisj : ∀ e ∈ imps0, e.1 ∉ names) :
    names.foldl miceCatFitStep (f, imps0) =
    (⟨f.cols.map (fun c => if c.1 ∈ names then (c.1, catFillCol c.2) else c)⟩,
     imps0 ++ names.filterMap (fun n =>
       (f.lookup n).bind (fun cd => (catImputerOf cd).map (fun v => (n, v))))) := by
  induction names generalizing f imps0 with
  | nil =>
    simp only [List.foldl_nil, List.filterMap_nil, List.append_nil]
    have hp : ∀ c ∈ f.cols, (if c.1 ∈ ([] : List String)
        then (c.1, catFillCol c.2) else c) = id c := by
      intro c _
      rw [if_neg (List.not_mem_nil c.1)]
      rfl
    rw [List.map_congr_left hp, List.map_id, Frame.eta]
  | cons n ns ih =>
    have hmemn : n ∈ f.columns := hsub n (List.mem_cons_self n ns)
    obtain ⟨cd, hcd⟩ := Frame.lookup_eq_some_of_mem_columns f n hmemn
    have hnd2 := List.nodup_cons.mp hnd
    cases cd with
    | numeric vs =>
      rw [List.foldl_cons, miceCatFitStep_of_lookup_num f imps0 n vs hcd]
      rw [ih f imps0 hnd2.2 (fun m hm => hsub m (List.mem_cons_of_mem n hm)) hfnd
        (fun e he hc => hdisj e he (List.mem_cons_of_mem n hc))]
      have hframe : f.cols.map (fun c => if c.1 ∈ ns then (c.1, catFillCol c.2) else c) =
          f.cols.map (fun c => if c.1 ∈ n :: ns then (c.1, catFillCol c.2) else c) := by
        apply List.map_congr_left
        intro c hc
        by_cases hcn : c.1 = n
        · have hce : f.lookup c.1 = some c.2 := Frame.lookup_of_mem_nodup f c hc hfnd
          have hcd2 : ColData.numeric vs = c.2 := by
            rw [hcn] at hce
            rw [hce] at hcd
            exact (Option.some.inj hcd).symm
          rw [if_neg (fun hmem => hnd2.1 (hcn ▸ hmem)),
            if_pos (hcn ▸ List.mem_cons_self n ns), ← hcd2]
          simp [catFillCol]
          rw [hcd2]
        · by_cases hcns : c.1 ∈ ns
          · simp [hcn, hcns]
          · simp [hcn, hcns]
      have himps : List.filterMap (fun m => (f.lookup m).bind
            (fun cd => (catImputerOf cd).map (fun v => (m, v)))) ns =
          List.filterMap (fun m => (f.lookup m).bind
            (fun cd => (catImputerOf cd).map (fun v => (m, v)))) (n :: ns) := by
        rw [List.filterMap_cons, hcd]
        simp [catImputerOf]
      rw [hframe, ← himps]
    | categorical vs =>
      rw [List.foldl_cons, miceCatFitStep_of_lookup_cat f imps0 n vs hcd,
        dictSet_append_of_fresh _ _ _ (fun e he hek =>
          hdisj e he (hek ▸ List.mem_cons_self n ns))]
      have hcols' : (f.setCol n (catFillCol (ColData.categorical vs))).columns = f.columns :=
        Frame.columns_setCol_of_mem f n _ hmemn
      rw [ih (f.setCol n (catFillCol (ColData.categorical vs)))
        (imps0 ++ [(n, PyVal.str (modeOrUnknown vs))]) hnd2.2
        (fun m hm => hcols' ▸ hsub m (List.mem_cons_of_mem n hm))
        (hcols' ▸ hfnd)
        (fun e he => by
          rcases List.mem_append.mp he with he | he
          · exact fun hc => hdisj e he (List.mem_cons_of_mem n hc)
          · rw [List.mem_singleton] at he
            subst he
            exact hnd2.1)]
      have hframe : (f.setCol n (catFillCol (ColData.categorical vs))).cols.map
          (fun c => if c.1 ∈ ns then (c.1, catFillCol c.2) else c) =
          f.cols.map (fun c => if c.1 ∈ n :: ns then (c.1, catFillCol c.2) else c) := by
        rw [Frame.setCol_cols_of_mem f n _ hmemn, List.map_map]
        apply List.map_congr_left
        intro c hc
        simp only [Function.comp]
        by_cases hcn : c.1 = n
        · have hce : f.lookup c.1 = some c.2 := Frame.lookup_of_mem_nodup f c hc hfnd
          have hcd2 : ColData.categorical vs = c.2 := by
            rw [hcn] at hce
            rw [hce] at hcd
            exact (Option.some.inj hcd).symm
          simp [hcn, hnd2.1, ← hcd2]
        · by_cases hcns : c.1 ∈ ns
          · simp [hcn, hcns]
          · simp [hcn, hcns]
      have himps : (imps0 ++ [(n, PyVal.str (modeOrUnknown vs))]) ++ ns.filterMap (fun m =>
          ((f.setCol n (catFillCol (ColData.categorical vs))).lookup m).bind
            (fun cd2 => (catImputerOf cd2).map (fun v => (m, v)))) =
          imps0 ++ (n :: ns).filterMap (fun m =>
            (f.lookup m).bind (fun cd2 => (catImputerOf cd2).map (fun v => (m, v)))) := by
        rw [List.filterMap_cons, hcd]
        rw [List.append_assoc, List.singleton_append]
        have hrest : ns.filterMap (fun m =>
            ((f.setCol n (catFillCol (ColData.categorical vs))).lookup m).bind
              (fun cd2 => (catImputerOf cd2).map (fun v => (m, v)))) =
            ns.filterMap (fun m =>
              (f.lookup m).bind (fun cd2 => (catImputerOf cd2).map (fun v => (m, v)))) := by
          apply list_filterMap_congr
          intro m hm
          rw [Frame.lookup_setCol_ne f n m _ (fun he => hnd2.1 (he ▸ hm))]
        rw [hrest]
        simp [catImputerOf]
      rw [hframe, himps]

theorem Frame.valuesF64_of_all_numeric (f : Frame)
    (h : f.cols.all (fun c => c.2.isNumeric) = true) :
    f.valuesF64 = Except.ok (valuesRows f) := by
  unfold Frame.valuesF64 valuesRows
  rw [if_pos h]

theorem simpleFillCol_isNumeric (cd : ColData) :
    (simpleFillCol cd).isNumeric = cd.isNumeric := by
  cases cd <;> rfl

theorem catFillCol_isNumeric (cd : ColData) :
    (catFillCol cd).isNumeric = cd.isNumeric := by
  cases cd <;> rfl

theorem mem_select_of_categorical (f : Frame) (c : String × ColData)
    (hc : c ∈ f.cols) (hcat : c.2.isNumeric = false) :
    c.1 ∈ f.select_dtypes_object := by
  unfold Frame.select_dtypes_object
  cases hcd : c.2 with
  | numeric vs => rw [hcd] at hcat; cases hcat
  | categorical vs =>
    exact List.mem_filterMap.mpr ⟨c, hc, by rw [hcd]⟩

theorem select_sublist_columns (f : Frame) :
    f.select_dtypes_object.Sublist f.columns := by
  unfold Frame.select_dtypes_object Frame.columns
  induction f.cols with
  | nil => exact List.Sublist.refl _
  | cons c cs ih =>
    cases hcd : c.2 with
    | numeric vs => simp only [List.filterMap_cons, hcd, List.map_cons]; exact ih.cons c.1
    | categorical vs => simp only [List.filterMap_cons, hcd, List.map_cons]; exact ih.cons₂ c.1

theorem select_nodup (f : Frame) (hfnd : f.columns.Nodup) :
    f.select_dtypes_object.Nodup :=
  (select_sublist_columns f).nodup hfnd

theorem mem_columns_of_mem_select (f : Frame) (n : String)
    (h : n ∈ f.select_dtypes_object) : n ∈ f.columns :=
  (select_sublist_columns f).mem h

/-- Columns kept by one-hot encoding are all numeric provided the
non-encoded columns were numeric. -/
theorem get_dummies_all_numeric (f : Frame) (cats : List String)
    (h : ∀ c ∈ f.cols, c.1 ∉ cats → c.2.isNumeric = true) :
    (get_dummies f cats).cols.all (fun c => c.2.isNumeric) = true := by
  unfold get_dummies
  rw [List.all_append]
  apply Bool.and_eq_true_iff.mpr
  constructor
  · rw [List.all_eq_true]
    intro c hc
    rcases List.mem_filter.mp hc with ⟨hcm, hcc⟩
    apply h c hcm
    intro hmem
    rw [decide_eq_true_eq] at hcc
    exact hcc (by simpa using hmem)
  · rw [List.all_eq_true]
    intro c hc
    rcases List.mem_flatMap.mp hc with ⟨n, _, hcn⟩
    cases hl : f.lookup n with
    | none => rw [hl] at hcn; cases hcn
    | some cd =>
      rw [hl] at hcn
      cases cd with
      | numeric vs => cases hcn
      | categorical vs =>
        rcases List.mem_map.mp hcn with ⟨v, _, hv⟩
        rw [← hv]
        rfl

/-- The simple-imputation loop over all columns: pointwise fill plus the
recorded per-column statistics. -/
theorem fit_loop_simple_eq (f : Frame) (hfnd : f.columns.Nodup) :
    f.columns.foldl simpleImputeStep (f, []) = (simpleFilled f, simpleImputers f) := by
  rw [foldl_simpleImputeStep_strong f.columns f [] hfnd (fun n hn => hn) hfnd
    (by intro e he; cases he)]
  unfold simpleFilled simpleImputers
  have hframe : f.cols.map (fun c => if c.1 ∈ f.columns then (c.1, simpleFillCol c.2) else c) =
      f.cols.map (fun c => (c.1, simpleFillCol c.2)) := by
    apply List.map_congr_left
    intro c hc
    have hmemc : c.1 ∈ f.columns := List.mem_map.mpr ⟨c, hc, rfl⟩
    rw [if_pos hmemc]
  have himps : f.columns.filterMap (fun n =>
      (f.lookup n).map (fun cd => (n, simpleImputerOf cd))) =
      f.cols.map (fun c => (c.1, simpleImputerOf c.2)) := by
    unfold Frame.columns
    rw [List.filterMap_map]
    apply filterMap_congr_some
    intro c hc
    simp only [Function.comp]
    rw [Frame.lookup_of_mem_nodup f c hc hfnd]
    rfl
  rw [hframe, himps, List.nil_append]

/-- The mice-branch categorical loop over the object-dtype columns:
pointwise categorical fill plus the recorded modes. -/
theorem fit_loop_mice_eq (f : Frame) (hfnd : f.columns.Nodup) :
    f.select_dtypes_object.foldl miceCatFitStep (f, []) = (catFilled f, catImputers f) := by
  rw [foldl_miceCatFitStep_strong f.select_dtypes_object f []
    (select_nodup f hfnd) (fun n hn => mem_columns_of_mem_select f n hn) hfnd
    (by intro e he; cases he)]
  unfold catFilled catImputers
  have hframe : f.cols.map (fun c =>
      if c.1 ∈ f.select_dtypes_object then (c.1, catFillCol c.2) else c) =
      f.cols.map (fun c => (c.1, catFillCol c.2)) := by
    apply List.map_congr_left
    intro c hc
    cases hcd : c.2 with
    | categorical vs =>
      rw [if_pos (mem_select_of_categorical f c hc (by rw [hcd]; rfl))]
    | numeric vs =>
      rw [if_neg ?_, show catFillCol (ColData.numeric vs) = ColData.numeric vs from rfl,
        ← hcd]
      · intro hmem
        rcases List.mem_filterMap.mp hmem with ⟨e, he, hee⟩
        cases hed : e.2 with
        | numeric ws => rw [hed] at hee; cases hee
        | categorical ws =>
          rw [hed] at hee
          have he1 : e.1 = c.1 := Option.some.inj hee
          have hlk := Frame.lookup_of_mem_nodup f e he hfnd
          rw [he1] at hlk
          rw [Frame.lookup_of_mem_nodup f c hc hfnd] at hlk
          have he2 : e.2 = c.2 := (Option.some.inj hlk).symm
          rw [hcd] at he2
          rw [hed] at he2
          cases he2
  have himps : f.select_dtypes_object.filterMap (fun n =>
      (f.lookup n).bind (fun cd => (catImputerOf cd).map (fun v => (n, v)))) =
      f.cols.filterMap (fun c => (catImputerOf c.2).map (fun v => (c.1, v))) := by
    unfold Frame.select_dtypes_object
    rw [List.filterMap_filterMap]
    apply list_filterMap_congr
    intro c hc
    cases hcd : c.2 with
    | numeric vs => simp [catImputerOf]
    | categorical vs =>
      have hlk := Frame.lookup_of_mem_nodup f c hc hfnd
      simp [hlk, hcd, catImputerOf]
  rw [hframe, himps, List.nil_append]

theorem all_numeric_of_select_empty (f : Frame) (h : f.select_dtypes_object = []) :
    ∀ c ∈ f.cols, c.2.isNumeric = true := by
  intro c hc
  cases hcd : c.2 with
  | numeric vs => rfl
  | categorical vs =>
    have hmem := mem_select_of_categorical f c hc (by rw [hcd]; rfl)
    rw [h] at hmem
    cases hmem

theorem simpleFilled_nonselect_numeric (f : Frame) :
    ∀ c ∈ (simpleFilled f).cols, c.1 ∉ f.select_dtypes_object → c.2.isNumeric = true := by
  intro c hc hns
  rcases List.mem_map.mp hc with ⟨c0, hc0, hce⟩
  subst hce
  simp only [simpleFillCol_isNumeric]
  cases hcd : c0.2 with
  | numeric vs => rfl
  | categorical vs =>
    exact absurd (mem_select_of_categorical f c0 hc0 (by rw [hcd]; rfl)) hns

theorem catFilled_nonselect_numeric (f : Frame) :
    ∀ c ∈ (catFilled f).cols, c.1 ∉ f.select_dtypes_object → c.2.isNumeric = true := by
  intro c hc hns
  rcases List.mem_map.mp hc with ⟨c0, hc0, hce⟩
  subst hce
  simp only [catFillCol_isNumeric]
  cases hcd : c0.2 with
  | numeric vs => rfl
  | categorical vs =>
    exact absurd (mem_select_of_categorical f c0 hc0 (by rw [hcd]; rfl)) hns

theorem fitEncodedSimple_all_numeric (f : Frame) :
    (fitEncodedSimple f).cols.all (fun c => c.2.isNumeric) = true := by
  unfold fitEncodedSimple
  by_cases hsel : f.select_dtypes_object.isEmpty
  · rw [if_pos hsel]
    rw [List.all_eq_true]
    intro c hc
    exact simpleFilled_nonselect_numeric f c hc
      (by rw [List.isEmpty_iff.mp hsel]; exact List.not_mem_nil c.1)
  · rw [if_neg hsel]
    apply get_dummies_all_numeric
    exact simpleFilled_nonselect_numeric f

theorem fitEncodedMice_all_numeric (f : Frame) :
    (fitEncodedMice f).cols.all (fun c => c.2.isNumeric) = true := by
  unfold fitEncodedMice
  by_cases hsel : f.select_dtypes_object.isEmpty
  · rw [if_pos hsel]
    rw [List.all_eq_true]
    intro c hc
    exact catFilled_nonselect_numeric f c hc
      (by rw [List.isEmpty_iff.mp hsel]; exact List.not_mem_nil c.1)
  · rw [if_neg hsel]
    apply get_dummies_all_numeric
    exact catFilled_nonselect_numeric f

theorem frameOfValues_all_numeric (names : List String) (vals : List (List ℚ)) :
    (frameOfValues names vals).cols.all (fun c => c.2.isNumeric) = true := by
  rw [List.all_eq_true]
  intro c hc
  rcases List.mem_map.mp hc with ⟨p, _, hpe⟩
  rw [← hpe]
  rfl

/-- Full characterization of a simple-strategy fit on a fresh instance. -/
theorem fit_transform_simple_eq (lib : MiceLib) (f : Frame) (hfnd : f.columns.Nodup) :
    DataProcessor.fit_transform lib (DataProcessor.init false) f =
    Except.ok ({ use_mice := false,
                 feature_names_in_ := some f.columns,
                 feature_names_out_ := some (fitEncodedSimple f).columns,
                 categorical_columns_ := f.select_dtypes_object,
                 imputers_ := simpleImputers f,
                 mice_imputer_ := none },
      valuesRows (fitEncodedSimple f)) := by
  unfold DataProcessor.fit_transform
  simp only [DataProcessor.init, Bool.false_eq_true, if_false]
  rw [fit_loop_simple_eq f hfnd]
  simp only
  rw [show (if f.select_dtypes_object.isEmpty then simpleFilled f
      else get_dummies (simpleFilled f) f.select_dtypes_object) = fitEncodedSimple f
    from rfl]
  rw [Frame.valuesF64_of_all_numeric (fitEncodedSimple f) (fitEncodedSimple_all_numeric f)]
  rfl

/-- Full characterization of a mice-strategy fit on a fresh instance. -/
theorem fit_transform_mice_eq (lib : MiceLib) (f : Frame) (hfnd : f.columns.Nodup) :
    DataProcessor.fit_transform lib (DataProcessor.init true) f =
    Except.ok ({ use_mice := true,
                 feature_names_in_ := some f.columns,
                 feature_names_out_ := some (fitEncodedMice f).columns,
                 categorical_columns_ := f.select_dtypes_object,
                 imputers_ := catImputers f,
                 mice_imputer_ := some (MiceModel.mk (fitEncodedMice f).columns
                   (lib.fit_transform (fitEncodedMice f).columns
                     (valuesRows (fitEncodedMice f))).1) },
      valuesRows (frameOfValues (fitEncodedMice f).columns
        (lib.fit_transform (fitEncodedMice f).columns (valuesRows (fitEncodedMice f))).2)) := by
  unfold DataProcessor.fit_transform
  simp only [DataProcessor.init, if_true]
  rw [fit_loop_mice_eq f hfnd]
  simp only
  rw [show (if f.select_dtypes_object.isEmpty then catFilled f
      else get_dummies (catFilled f) f.select_dtypes_object) = fitEncodedMice f
    from rfl]
  rw [Frame.valuesF64_of_all_numeric (fitEncodedMice f) (fitEncodedMice_all_numeric f)]
  rw [except_bind_ok]
  rw [Frame.valuesF64_of_all_numeric _ (frameOfValues_all_numeric _ _)]
  rw [except_bind_ok]
  rw [frameOfValues_columns]

theorem mem_foldl_uniq (xs : List String) (acc : List String) (a : String) :
    a ∈ xs.foldl (fun acc x => if x ∈ acc then acc else acc ++ [x]) acc ↔
    a ∈ acc ∨ a ∈ xs := by
  induction xs generalizing acc with
  | nil => simp
  | cons x xs ih =>
    rw [List.foldl_cons, ih]
    by_cases hx : x ∈ acc
    · rw [if_pos hx]
      constructor
      · rintro (h | h)
        · exact Or.inl h
        · exact Or.inr (List.mem_cons_of_mem x h)
      · rintro (h | h)
        · exact Or.inl h
        · rcases List.mem_cons.mp h with rfl | h
          · exact Or.inl hx
          · exact Or.inr h
    · rw [if_neg hx]
      constructor
      · rintro (h | h)
        · rcases List.mem_append.mp h with h | h
          · exact Or.inl h
          · exact Or.inr (List.mem_cons.mpr (Or.inl (List.mem_singleton.mp h)))
        · exact Or.inr (List.mem_cons_of_mem x h)
      · rintro (h | h)
        · exact Or.inl (List.mem_append.mpr (Or.inl h))
        · rcases List.mem_cons.mp h with rfl | h
          · exact Or.inl (List.mem_append.mpr (Or.inr (List.mem_singleton.mpr rfl)))
          · exact Or.inr h

theorem mem_uniqueFirst (xs : List String) (a : String) :
    a ∈ uniqueFirst xs ↔ a ∈ xs := by
  unfold uniqueFirst
  rw [mem_foldl_uniq]
  simp

theorem nodup_foldl_uniq (xs : List String) (acc : List String) (hacc : acc.Nodup) :
    (xs.foldl (fun acc x => if x ∈ acc then acc else acc ++ [x]) acc).Nodup := by
  induction xs generalizing acc with
  | nil => exact hacc
  | cons x xs ih =>
    rw [List.foldl_cons]
    by_cases hx : x ∈ acc
    · rw [if_pos hx]; exact ih acc hacc
    · rw [if_neg hx]
      exact ih _ (by
        rw [List.nodup_append]
        exact ⟨hacc, List.nodup_singleton x, by
          intro a ha hb
          rw [List.mem_singleton] at hb
          exact hx (hb ▸ ha)⟩)

theorem uniqueFirst_nodup (xs : List String) : (uniqueFirst xs).Nodup :=
  nodup_foldl_uniq xs [] List.nodup_nil

theorem foldl_max_mem (l : List Nat) (a : Nat) : l.foldl Nat.max a ∈ a :: l := by
  induction l generalizing a with
  | nil => simp
  | cons x xs ih =>
    rw [List.foldl_cons]
    rcases List.mem_cons.mp (ih (Nat.max a x)) with h | h
    · rw [h]
      rcases Nat.le_total a x with hle | hle
      · rw [show Nat.max a x = x from Nat.max_eq_right hle]
        exact List.mem_cons_of_mem _ (List.mem_cons_self _ _)
      · rw [show Nat.max a x = a from Nat.max_eq_left hle]
        exact List.mem_cons_self _ _
    · exact List.mem_cons_of_mem _ (List.mem_cons_of_mem _ h)

theorem le_foldl_max_seed (l : List Nat) (a : Nat) : a ≤ l.foldl Nat.max a := by
  induction l generalizing a with
  | nil => exact Nat.le_refl a
  | cons x xs ih => exact Nat.le_trans (Nat.le_max_left a x) (ih (Nat.max a x))

theorem le_foldl_max_of_mem (l : List Nat) : ∀ (a b : Nat), b ∈ l →
    b ≤ l.foldl Nat.max a := by
  induction l with
  | nil => intro a b hb; cases hb
  | cons x xs ih =>
    intro a b hb
    rw [List.foldl_cons]
    rcases List.mem_cons.mp hb with rfl | hb
    · exact Nat.le_trans (Nat.le_max_right a b) (le_foldl_max_seed xs _)
    · exact ih _ b hb

theorem mem_sortStr (xs : List String) (a : String) : a ∈ sortStr xs ↔ a ∈ xs :=
  List.Perm.mem_iff (List.perm_insertionSort strLe xs)

theorem sorted_sortStr (xs : List String) : List.Sorted strLe (sortStr xs) :=
  List.sorted_insertionSort strLe xs

theorem sortStr_eq_nil_iff (xs : List String) : sortStr xs = [] ↔ xs = [] := by
  constructor
  · intro h
    have hp := List.perm_insertionSort strLe xs
    rw [show List.insertionSort strLe xs = sortStr xs from rfl, h] at hp
    exact hp.symm.eq_nil
  · intro h
    rw [h]
    rfl

theorem count_le_maxCountOf (obs : List String) (w : String) (hw : w ∈ obs) :
    obs.count w ≤ maxCountOf obs :=
  le_foldl_max_of_mem _ 0 _
    (List.mem_map.mpr ⟨w, (mem_uniqueFirst obs w).mpr hw, rfl⟩)

theorem maxCountOf_attained (obs : List String) (hobs : obs ≠ []) :
    ∃ u ∈ obs, obs.count u = maxCountOf obs := by
  have hmem := foldl_max_mem ((uniqueFirst obs).map (fun v => obs.count v)) 0
  rcases List.mem_cons.mp hmem with h0 | hmem
  · rcases List.exists_mem_of_ne_nil obs hobs with ⟨u, hu⟩
    refine ⟨u, hu, Nat.le_antisymm (count_le_maxCountOf obs u hu) ?_⟩
    unfold maxCountOf
    rw [h0]
    exact Nat.zero_le _
  · rcases List.mem_map.mp hmem with ⟨u, hu, he⟩
    exact ⟨u, (mem_uniqueFirst obs u).mp hu, he⟩

theorem modeCandidates_ne_nil (obs : List String) (hobs : obs ≠ []) :
    modeCandidates obs ≠ [] := by
  rcases maxCountOf_attained obs hobs with ⟨u, hu, hcu⟩
  intro he
  have hmem : u ∈ modeCandidates obs :=
    List.mem_filter.mpr ⟨(mem_uniqueFirst obs u).mpr hu, by simp [hcu]⟩
  rw [he] at hmem
  cases hmem

theorem seriesMode_ne_nil (vs : List (Option String))
    (hobs : vs.filterMap id ≠ []) : seriesMode vs ≠ [] := by
  unfold seriesMode
  intro h
  exact modeCandidates_ne_nil _ hobs ((sortStr_eq_nil_iff _).mp h)

/-- Characterization of the recorded categorical fallback over a column
with at least one observed value: it is an observed value of maximal
frequency, and among the maximal ones it is least in Python string
order. -/
theorem modeOrUnknown_spec (vs : List (Option String))
    (hobs : vs.filterMap id ≠ []) :
    modeOrUnknown vs ∈ vs.filterMap id ∧
    (∀ w ∈ vs.filterMap id,
      (vs.filterMap id).count w ≤ (vs.filterMap id).count (modeOrUnknown vs)) ∧
    (∀ w ∈ vs.filterMap id,
      (vs.filterMap id).count w = (vs.filterMap id).count (modeOrUnknown vs) →
      strLe (modeOrUnknown vs) w) := by
  rcases List.exists_cons_of_ne_nil (seriesMode_ne_nil vs hobs) with ⟨v, rest, hsort⟩
  have hv : modeOrUnknown vs = v := by
    unfold modeOrUnknown
    rw [hsort]
  rw [hv]
  have hvmem : v ∈ modeCandidates (vs.filterMap id) := by
    rw [← mem_sortStr, show sortStr (modeCandidates (vs.filterMap id)) = seriesMode vs
      from rfl, hsort]
    exact List.mem_cons_self v rest
  rcases List.mem_filter.mp hvmem with ⟨hvu, hvc⟩
  have hvcount : (vs.filterMap id).count v = maxCountOf (vs.filterMap id) := by
    simpa using hvc
  refine ⟨(mem_uniqueFirst _ v).mp hvu, ?_, ?_⟩
  · intro w hw
    rw [hvcount]
    exact count_le_maxCountOf _ w hw
  · intro w hw hwc
    have hwmem : w ∈ modeCandidates (vs.filterMap id) := by
      refine List.mem_filter.mpr ⟨(mem_uniqueFirst _ w).mpr hw, ?_⟩
      simp [hwc, hvcount]
    rw [← mem_sortStr, show sortStr (modeCandidates (vs.filterMap id)) = seriesMode vs
      from rfl, hsort] at hwmem
    rcases List.mem_cons.mp hwmem with rfl | hwmem
    · exact strLe_refl w
    · have hs := sorted_sortStr (modeCandidates (vs.filterMap id))
      rw [show sortStr (modeCandidates (vs.filterMap id)) = seriesMode vs from rfl,
        hsort] at hs
      exact List.rel_of_sorted_cons hs w hwmem

theorem modeOrUnknown_of_no_observed (vs : List (Option String))
    (hobs : vs.filterMap id = []) : modeOrUnknown vs = "unknown" := by
  unfold modeOrUnknown seriesMode modeCandidates uniqueFirst
  rw [hobs]
  rfl

theorem dict_find_eq {β : Type} (l : List (String × β)) (k : String) (b : β)
    (hmem : (k, b) ∈ l) (hnd : (l.map Prod.fst).Nodup) :
    l.find? (fun e => e.1 == k) = some (k, b) :=
  find_fst_eq_of_nodup l (k, b) hmem hnd

theorem simpleImputers_keys (f : Frame) :
    (simpleImputers f).map Prod.fst = f.columns := by
  unfold simpleImputers Frame.columns
  rw [List.map_map]
  rfl

theorem catImputers_keys (f : Frame) :
    (catImputers f).map Prod.fst = f.select_dtypes_object := by
  unfold catImputers Frame.select_dtypes_object
  rw [List.map_filterMap]
  apply list_filterMap_congr
  intro c _
  cases c.2 with
  | numeric vs => rfl
  | categorical vs => rfl

theorem dictGet_simpleImputers (f : Frame) (hfnd : f.columns.Nodup)
    (c : String × ColData) (hc : c ∈ f.cols) :
    dictGet (simpleImputers f) c.1 = some (simpleImputerOf c.2) := by
  unfold dictGet
  rw [dict_find_eq (simpleImputers f) c.1 (simpleImputerOf c.2)
    (List.mem_map.mpr ⟨c, hc, rfl⟩) (by rw [simpleImputers_keys]; exact hfnd)]
  rfl

theorem dictGet_catImputers (f : Frame) (hfnd : f.columns.Nodup)
    (c : String × ColData) (vs : List (Option String)) (hc : c ∈ f.cols)
    (hcd : c.2 = ColData.categorical vs) :
    dictGet (catImputers f) c.1 = some (PyVal.str (modeOrUnknown vs)) := by
  unfold dictGet
  rw [dict_find_eq (catImputers f) c.1 (PyVal.str (modeOrUnknown vs))
    (List.mem_filterMap.mpr ⟨c, hc, by rw [hcd]; rfl⟩)
    (by rw [catImputers_keys]; exact select_nodup f hfnd)]
  rfl

/-- C6 (amended): under either strategy, the fallback recorded for a
categorical column is its most frequent observed value, ties resolved by
the smallest value in Python string order (pandas sorts the tied modes and
the code takes index 0), and the sentinel "unknown" when the column has no
observed value. -/
theorem C6_recorded_mode_characterization (b : Bool) (lib : MiceLib) (f : Frame)
    (p : DataProcessor) (m0 : List (List (Option ℚ)))
    (hfnd : f.columns.Nodup)
    (hfit : DataProcessor.fit_transform lib (DataProcessor.init b) f = Except.ok (p, m0)) :
    ∀ c ∈ f.cols, ∀ vs, c.2 = ColData.categorical vs →
    ∃ v, dictGet p.imputers_ c.1 = some (PyVal.str v) ∧
      ((vs.filterMap id = [] ∧ v = "unknown") ∨
       (v ∈ vs.filterMap id ∧
        (∀ w ∈ vs.filterMap id, (vs.filterMap id).count w ≤ (vs.filterMap id).count v) ∧
        (∀ w ∈ vs.filterMap id, (vs.filterMap id).count w = (vs.filterMap id).count v →
          strLe v w))) := by
  intro c hc vs hcd
  have hval : dictGet p.imputers_ c.1 = some (PyVal.str (modeOrUnknown vs)) := by
    cases b with
    | false =>
      rw [fit_transform_simple_eq lib f hfnd] at hfit
      injection hfit with h
      injection h with hp hm
      subst hp
      have := dictGet_simpleImputers f hfnd c hc
      rw [hcd] at this
      exact this
    | true =>
      rw [fit_transform_mice_eq lib f hfnd] at hfit
      injection hfit with h
      injection h with hp hm
      subst hp
      exact dictGet_catImputers f hfnd c vs hc hcd
  refine ⟨modeOrUnknown vs, hval, ?_⟩
  by_cases hobs : vs.filterMap id = []
  · exact Or.inl ⟨hobs, modeOrUnknown_of_no_observed vs hobs⟩
  · exact Or.inr (modeOrUnknown_spec vs hobs)

/-- Witness for C6: fitting the simple strategy on `{c:["A","B"]}` records
a fallback that is observed, of maximal frequency, and least among the
tied values. -/
theorem C6_recorded_mode_characterization_witness :
    ∃ v, dictGet pW.imputers_ "c" = some (PyVal.str v) ∧
      (([some "A", some "B"].filterMap id = [] ∧ v = "unknown") ∨
       (v ∈ [some "A", some "B"].filterMap id ∧
        (∀ w ∈ [some "A", some "B"].filterMap id,
          ([some "A", some "B"].filterMap id).count w ≤
          ([some "A", some "B"].filterMap id).count v) ∧
        (∀ w ∈ [some "A", some "B"].filterMap id,
          ([some "A", some "B"].filterMap id).count w =
          ([some "A", some "B"].filterMap id).count v → strLe v w))) :=
  C6_recorded_mode_characterization false zeroFillLib dfFitW pW
    [[some 1, some 0], [some 0, some 1]] (by decide) rfl
    ("c", ColData.categorical [some "A", some "B"]) (by decide)
    [some "A", some "B"] rfl

theorem Frame.lookup_mapCols (f : Frame) (g : ColData → ColData) (n : String) :
    (Frame.mk (f.cols.map (fun c => (c.1, g c.2)))).lookup n =
    (f.lookup n).map g := by
  unfold Frame.lookup
  simp only
  rw [List.find?_map]
  have hpg : ((fun (e : String × ColData) => e.1 == n) ∘ (fun c => (c.1, g c.2))) =
      (fun (e : String × ColData) => e.1 == n) := by
    funext c
    rfl
  rw [hpg]
  cases f.cols.find? (fun (e : String × ColData) => e.1 == n) with
  | none => rfl
  | some e => rfl

theorem not_mem_select_of_numeric (f : Frame) (c : String × ColData)
    (hc : c ∈ f.cols) (hfnd : f.columns.Nodup) (hnum : c.2.isNumeric = true) :
    c.1 ∉ f.select_dtypes_object := by
  intro hmem
  rcases List.mem_filterMap.mp hmem with ⟨e, he, hee⟩
  cases hed : e.2 with
  | numeric ws => rw [hed] at hee; cases hee
  | categorical ws =>
    rw [hed] at hee
    have he1 : e.1 = c.1 := Option.some.inj hee
    have hlk := Frame.lookup_of_mem_nodup f e he hfnd
    rw [he1, Frame.lookup_of_mem_nodup f c hc hfnd] at hlk
    have he2 : e.2 = c.2 := (Option.some.inj hlk).symm
    rw [hed] at he2
    rw [← he2] at hnum
    cases hnum

theorem sortStr_length (xs : List String) : (sortStr xs).length = xs.length :=
  List.length_insertionSort strLe xs

theorem uniqueFirst_length (xs : List String) :
    (uniqueFirst xs).length = xs.toFinset.card := by
  have h1 : (uniqueFirst xs).toFinset = xs.toFinset := by
    apply Finset.ext
    intro a
    simp [List.mem_toFinset, mem_uniqueFirst]
  rw [← h1, List.toFinset_card_of_nodup (uniqueFirst_nodup xs)]

/-- The distinct-value count of a mode-filled categorical column: the
number of distinct observed values, or 1 (the fill value alone) when
nothing was observed. -/
theorem filled_cat_distinct_count (vs : List (Option String)) (hne : vs ≠ []) :
    (uniqueFirst ((vs.map (fun c => some (c.getD (modeOrUnknown vs)))).filterMap id)).length =
    if (vs.filterMap id).isEmpty then 1 else (uniqueFirst (vs.filterMap id)).length := by
  have hmap : (vs.map (fun c => some (c.getD (modeOrUnknown vs)))).filterMap id =
      vs.map (fun c => c.getD (modeOrUnknown vs)) := by
    rw [List.filterMap_map]
    exact List.filterMap_eq_map _ ▸ rfl
  rw [hmap, uniqueFirst_length]
  by_cases hobs : vs.filterMap id = []
  · rw [if_pos (by rw [hobs]; rfl)]
    have hall : ∀ c ∈ vs, c = none := by
      intro c hcv
      have := List.filterMap_eq_nil_iff.mp hobs c hcv
      cases c with
      | none => rfl
      | some v => cases this
    have hset : (vs.map (fun c => c.getD (modeOrUnknown vs))).toFinset =
        {modeOrUnknown vs} := by
      apply Finset.ext
      intro a
      simp only [List.mem_toFinset, List.mem_map, Finset.mem_singleton]
      constructor
      · rintro ⟨c, hcv, hce⟩
        rw [hall c hcv] at hce
        exact hce.symm
      · intro ha
        rcases List.exists_mem_of_ne_nil vs hne with ⟨c, hcv⟩
        exact ⟨c, hcv, by rw [hall c hcv, ha]; rfl⟩
    rw [hset]
    rfl
  · rw [if_neg (by
      intro hie
      exact hobs (List.isEmpty_iff.mp hie))]
    rw [uniqueFirst_length]
    congr 1
    apply Finset.ext
    intro a
    simp only [List.mem_toFinset, List.mem_map]
    constructor
    · rintro ⟨c, hcv, hce⟩
      cases c with
      | some v =>
        rw [show (some v).getD (modeOrUnknown vs) = v from rfl] at hce
        subst hce
        exact List.mem_filterMap.mpr ⟨some v, hcv, rfl⟩
      | none =>
        rw [show (none : Option String).getD (modeOrUnknown vs) = modeOrUnknown vs
          from rfl] at hce
        subst hce
        exact (modeOrUnknown_spec vs hobs).1
    · intro ha
      rcases List.mem_filterMap.mp ha with ⟨c, hcv, hce⟩
      cases c with
      | none => cases hce
      | some v =>
        have : v = a := Option.some.inj hce
        subst this
        exact ⟨some v, hcv, rfl⟩

theorem sum_filterMap_getD {α : Type} (l : List α) (g : α → Option Nat) :
    (l.filterMap g).sum = (l.map (fun a => (g a).getD 0)).sum := by
  induction l with
  | nil => rfl
  | cons a as ih =>
    rw [List.filterMap_cons, List.map_cons, List.sum_cons]
    cases hg : g a with
    | none => rw [ih]; simp
    | some n => rw [List.sum_cons, ih]; rfl

theorem get_dummies_cols_length (f : Frame) (cats : List String) :
    (get_dummies f cats).cols.length =
    (f.cols.filter (fun c => ¬ cats.contains c.1)).length +
    (cats.map (fun n => match f.lookup n with
       | some (ColData.categorical vs) => (sortStr (uniqueFirst (vs.filterMap id))).length
       | _ => 0)).sum := by
  unfold get_dummies
  rw [List.length_append]
  congr 1
  rw [List.length_flatMap]
  congr 1
  apply List.map_congr_left
  intro n _
  simp only [Function.comp]
  cases hl : f.lookup n with
  | none => rfl
  | some cd =>
    cases cd with
    | numeric vs => rfl
    | categorical vs => rw [List.length_map]

theorem width_of_select_empty (f : Frame) (hsel : f.select_dtypes_object.isEmpty = true) :
    specOutputWidth f = f.cols.length := by
  unfold specOutputWidth
  have hnum := all_numeric_of_select_empty f (List.isEmpty_iff.mp hsel)
  rw [List.filter_eq_self.mpr (fun c hc => by simpa using hnum c hc)]
  have hz : (f.cols.map (fun c => match c.2 with
      | ColData.categorical vs =>
          if (vs.filterMap id).isEmpty then 1 else (uniqueFirst (vs.filterMap id)).length
      | ColData.numeric _ => 0)).sum = 0 := by
    apply List.sum_eq_zero
    intro x hx
    rcases List.mem_map.mp hx with ⟨c, hc, hce⟩
    have hcn := hnum c hc
    cases hcd : c.2 with
    | numeric vs => rw [hcd] at hce; exact hce.symm
    | categorical vs => rw [hcd] at hcn; cases hcn
  rw [hz]
  omega

/-- Width of the one-hot-encoded, mode-filled training frame: numeric
columns keep one column each; every categorical column contributes its
distinct observed values (or the single sentinel when nothing observed). -/
theorem filled_encoded_length (f : Frame) (g : ColData → ColData)
    (hfnd : f.columns.Nodup) (hlen : ∀ c ∈ f.cols, 0 < c.2.length)
    (hgcat : ∀ vs, g (ColData.categorical vs) =
       ColData.categorical (vs.map (fun c => some (c.getD (modeOrUnknown vs)))))
    (_hgnum : ∀ cd, (g cd).isNumeric = cd.isNumeric) :
    (get_dummies (Frame.mk (f.cols.map (fun c => (c.1, g c.2))))
      f.select_dtypes_object).cols.length = specOutputWidth f := by
  rw [get_dummies_cols_length]
  unfold specOutputWidth
  congr 1
  · rw [show (Frame.mk (f.cols.map (fun c => (c.1, g c.2)))).cols =
        f.cols.map (fun c => (c.1, g c.2)) from rfl]
    rw [List.filter_map, List.length_map]
    congr 1
    apply List.filter_congr
    intro c hc
    simp only [Function.comp]
    by_cases hnum : c.2.isNumeric = true
    · rw [hnum]
      have := not_mem_select_of_numeric f c hc hfnd hnum
      simp [this]
    · have hcat : c.2.isNumeric = false := by
        cases hb : c.2.isNumeric
        · rfl
        · exact absurd hb hnum
      rw [hcat]
      have := mem_select_of_categorical f c hc hcat
      simp [this]
  · have hsel : f.select_dtypes_object.map (fun n =>
        match (Frame.mk (f.cols.map (fun c => (c.1, g c.2)))).lookup n with
        | some (ColData.categorical vs) => (sortStr (uniqueFirst (vs.filterMap id))).length
        | _ => 0) =
        f.select_dtypes_object.map (fun n =>
          match (f.lookup n).map g with
          | some (ColData.categorical vs) => (sortStr (uniqueFirst (vs.filterMap id))).length
          | _ => 0) := by
      apply List.map_congr_left
      intro n _
      rw [Frame.lookup_mapCols]
    rw [hsel]
    unfold Frame.select_dtypes_object
    rw [List.map_filterMap, sum_filterMap_getD]
    apply congrArg
    apply List.map_congr_left
    intro c hc
    cases hcd : c.2 with
    | numeric vs => rfl
    | categorical vs =>
      have hlk : f.lookup c.1 = some (ColData.categorical vs) := by
        rw [Frame.lookup_of_mem_nodup f c hc hfnd, hcd]
      simp only [Option.map_some', Option.getD_some, hlk]
      rw [hgcat vs]
      simp only
      rw [sortStr_length, filled_cat_distinct_count vs (by
        intro hvs
        have hl0 := hlen c hc
        rw [hcd, hvs] at hl0
        cases hl0)]

/-- C4 (amended): after any fit, len(OutputSchema) equals the number of
numeric columns plus, per categorical column, its distinct observed value
count (1 for a fully-missing categorical column, whose sentinel owns an
indicator column); and the concrete training table of the claim yields
exactly OutputSchema = [feature1, category1_A, category1_B]. -/
theorem C4_output_schema_width :
    (∀ (b : Bool) (lib : MiceLib) (f : Frame) (p : DataProcessor)
       (m0 : List (List (Option ℚ))) (outs : List String),
       f.columns.Nodup → (∀ c ∈ f.cols, 0 < c.2.length) →
       DataProcessor.fit_transform lib (DataProcessor.init b) f = Except.ok (p, m0) →
       p.feature_names_out_ = some outs →
       outs.length = specOutputWidth f) ∧
    (DataProcessor.fit_transform zeroFillLib (DataProcessor.init false) dfC4).map
      (fun r => r.1.feature_names_out_) =
      Except.ok (some ["feature1", "category1_A", "category1_B"]) := by
  constructor
  · intro b lib f p m0 outs hfnd hlen hfit hout
    cases b with
    | false =>
      rw [fit_transform_simple_eq lib f hfnd] at hfit
      injection hfit with h
      injection h with hp hm
      subst hp
      have houts : outs = (fitEncodedSimple f).columns := (Option.some.inj hout).symm
      subst houts
      have hcl : (fitEncodedSimple f).columns.length = (fitEncodedSimple f).cols.length := by
        simp [Frame.columns]
      rw [hcl]
      unfold fitEncodedSimple
      by_cases hsel : f.select_dtypes_object.isEmpty
      · rw [if_pos hsel]
        rw [show (simpleFilled f).cols.length = f.cols.length from by
          unfold simpleFilled; simp]
        exact (width_of_select_empty f hsel).symm
      · rw [if_neg hsel]
        exact filled_encoded_length f simpleFillCol hfnd hlen (fun vs => rfl)
          simpleFillCol_isNumeric
    | true =>
      rw [fit_transform_mice_eq lib f hfnd] at hfit
      injection hfit with h
      injection h with hp hm
      subst hp
      have houts : outs = (fitEncodedMice f).columns := (Option.some.inj hout).symm
      subst houts
      have hcl : (fitEncodedMice f).columns.length = (fitEncodedMice f).cols.length := by
        simp [Frame.columns]
      rw [hcl]
      unfold fitEncodedMice
      by_cases hsel : f.select_dtypes_object.isEmpty
      · rw [if_pos hsel]
        rw [show (catFilled f).cols.length = f.cols.length from by
          unfold catFilled; simp]
        exact (width_of_select_empty f hsel).symm
      · rw [if_neg hsel]
        exact filled_encoded_length f catFillCol hfnd hlen (fun vs => rfl)
          catFillCol_isNumeric
  · decide

/-- Witness for C4: the categorical table `{c:["A","B"]}` yields an output
schema of width 2 = 0 numeric columns + 2 distinct observed values. -/
theorem C4_output_schema_width_witness :
    (["c_A", "c_B"] : List String).length = specOutputWidth dfFitW :=
  C4_output_schema_width.1 false zeroFillLib dfFitW pW
    [[some 1, some 0], [some 0, some 1]] ["c_A", "c_B"]
    (by decide) (by decide) rfl rfl

theorem dictGet_cons_self (k : String) (v : PyVal) (d : List (String × PyVal)) :
    dictGet ((k, v) :: d) k = some v := by
  unfold dictGet
  simp [List.find?]

theorem dictGet_cons_ne (k m : String) (v : PyVal) (d : List (String × PyVal))
    (h : m ≠ k) : dictGet ((k, v) :: d) m = dictGet d m := by
  unfold dictGet
  simp only [List.find?, show (k == m) = false from beq_eq_false_iff_ne.mpr (Ne.symm h)]

theorem dictGet_eq_none_of_not_mem (d : List (String × PyVal)) (k : String)
    (h : k ∉ d.map Prod.fst) : dictGet d k = none := by
  unfold dictGet
  cases hf : d.find? (fun e => e.1 == k) with
  | none => rfl
  | some e =>
    exfalso
    apply h
    have hp := List.find?_some hf
    have he1 : e.1 = k := beq_iff_eq.mp (by simpa using hp)
    exact he1 ▸ List.mem_map.mpr ⟨e, List.mem_of_find?_eq_some hf, rfl⟩

/-- Characterization of the recorded-imputer fill loop over a frame that
contains every recorded column: each recorded column is filled with its
recorded value, other columns are untouched. -/
theorem fillFromImputers_eq (imps : List (String × PyVal)) (f : Frame)
    (hknd : (imps.map Prod.fst).Nodup)
    (hsub : ∀ e ∈ imps, e.1 ∈ f.columns)
    (hfnd : f.columns.Nodup) :
    fillFromImputers imps f =
    Except.ok ⟨f.cols.map (fun c => match dictGet imps c.1 with
      | some v => (c.1, c.2.fillna v)
      | none => c)⟩ := by
  induction imps generalizing f with
  | nil =>
    unfold fillFromImputers
    have hp : ∀ c ∈ f.cols, (match dictGet [] c.1 with
        | some v => (c.1, c.2.fillna v)
        | none => c) = id c := fun c _ => rfl
    rw [List.map_congr_left hp, List.map_id, Frame.eta]
  | cons e rest ih =>
    have hmem : e.1 ∈ f.columns := hsub e (List.mem_cons_self e rest)
    obtain ⟨cd, hcd⟩ := Frame.lookup_eq_some_of_mem_columns f e.1 hmem
    unfold fillFromImputers
    rw [hcd]
    show fillFromImputers rest (f.setCol e.1 (cd.fillna e.2)) = _
    have hknd2 := List.nodup_cons.mp (by
      rw [List.map_cons] at hknd
      exact hknd)
    have hcols' : (f.setCol e.1 (cd.fillna e.2)).columns = f.columns :=
      Frame.columns_setCol_of_mem f e.1 _ hmem
    rw [ih (f.setCol e.1 (cd.fillna e.2)) hknd2.2
      (fun e2 he2 => hcols' ▸ hsub e2 (List.mem_cons_of_mem e he2))
      (hcols' ▸ hfnd)]
    apply congrArg
    apply congrArg
    rw [Frame.setCol_cols_of_mem f e.1 _ hmem, List.map_map]
    apply List.map_congr_left
    intro c hc
    simp only [Function.comp]
    by_cases hce : c.1 = e.1
    · have hc2 : cd = c.2 := by
        have := Frame.lookup_of_mem_nodup f c hc hfnd
        rw [hce] at this
        rw [this] at hcd
        exact (Option.some.inj hcd).symm
      rw [if_pos (beq_iff_eq.mpr hce)]
      have hdg : dictGet rest e.1 = none :=
        dictGet_eq_none_of_not_mem rest e.1 hknd2.1
      simp only [hdg]
      rw [hce, dictGet_cons_self]
      rw [hc2]
    · rw [if_neg (by simpa using hce)]
      rw [dictGet_cons_ne e.1 c.1 e.2 rest hce]

/-- Characterization of the categorical fill loop of the mice transform
branch over a frame that contains every listed column. -/
theorem fillCatsFromImputers_eq (imps : List (String × PyVal)) (cats : List String)
    (f : Frame) (hnd : cats.Nodup)
    (hsub : ∀ n ∈ cats, n ∈ f.columns)
    (hfnd : f.columns.Nodup) :
    fillCatsFromImputers imps cats f =
    Except.ok ⟨f.cols.map (fun c => if c.1 ∈ cats then
      (c.1, c.2.fillna ((dictGet imps c.1).getD (PyVal.str "unknown"))) else c)⟩ := by
  induction cats generalizing f with
  | nil =>
    unfold fillCatsFromImputers
    have hp : ∀ c ∈ f.cols, (if c.1 ∈ ([] : List String) then
        (c.1, c.2.fillna ((dictGet imps c.1).getD (PyVal.str "unknown"))) else c) =
        id c := by
      intro c _
      rw [if_neg (List.not_mem_nil c.1)]
      rfl
    rw [List.map_congr_left hp, List.map_id, Frame.eta]
  | cons n rest ih =>
    have hmem : n ∈ f.columns := hsub n (List.mem_cons_self n rest)
    obtain ⟨cd, hcd⟩ := Frame.lookup_eq_some_of_mem_columns f n hmem
    unfold fillCatsFromImputers
    rw [hcd]
    show fillCatsFromImputers imps rest
      (f.setCol n (cd.fillna ((dictGet imps n).getD (PyVal.str "unknown")))) = _
    have hnd2 := List.nodup_cons.mp hnd
    have hcols' : (f.setCol n (cd.fillna ((dictGet imps n).getD (PyVal.str "unknown")))).columns = f.columns :=
      Frame.columns_setCol_of_mem f n _ hmem
    rw [ih (f.setCol n (cd.fillna ((dictGet imps n).getD (PyVal.str "unknown")))) hnd2.2
      (fun n2 hn2 => hcols' ▸ hsub n2 (List.mem_cons_of_mem n hn2))
      (hcols' ▸ hfnd)]
    apply congrArg
    apply congrArg
    rw [Frame.setCol_cols_of_mem f n _ hmem, List.map_map]
    apply List.map_congr_left
    intro c hc
    simp only [Function.comp]
    by_cases hce : c.1 = n
    · have hc2 : cd = c.2 := by
        have := Frame.lookup_of_mem_nodup f c hc hfnd
        rw [hce] at this
        rw [this] at hcd
        exact (Option.some.inj hcd).symm
      simp [hce, hnd2.1, hc2]
    · by_cases hcr : c.1 ∈ rest
      · simp [hce, hcr]
      · simp [hce, hcr]

theorem Frame.setCol_columns_mono (f : Frame) (n : String) (cd : ColData)
    (x : String) (hx : x ∈ f.columns) : x ∈ (f.setCol n cd).columns := by
  by_cases hmem : n ∈ f.columns
  · rw [Frame.columns_setCol_of_mem f n cd hmem]
    exact hx
  · unfold Frame.setCol
    rw [if_neg (by
      intro hc
      rcases List.any_eq_true.mp hc with ⟨e, he, hek⟩
      exact hmem (beq_iff_eq.mp hek ▸ List.mem_map.mpr ⟨e, he, rfl⟩))]
    unfold Frame.columns
    rw [List.map_append]
    exact List.mem_append.mpr (Or.inl hx)

theorem Frame.setCol_mem_self (f : Frame) (n : String) (cd : ColData) :
    n ∈ (f.setCol n cd).columns := by
  unfold Frame.setCol
  split
  · next hany =>
    rcases List.any_eq_true.mp hany with ⟨e, he, hek⟩
    unfold Frame.columns
    exact List.mem_map.mpr ⟨(n, cd), List.mem_map.mpr ⟨e, he, by rw [if_pos hek]⟩, rfl⟩
  · unfold Frame.columns
    rw [List.map_append]
    exact List.mem_append.mpr (Or.inr (by simp))

theorem Frame.setCol_all_numeric (f : Frame) (n : String) (vs : List (Option ℚ))
    (h : f.cols.all (fun c => c.2.isNumeric) = true) :
    ((f.setCol n (ColData.numeric vs)).cols.all (fun c => c.2.isNumeric)) = true := by
  unfold Frame.setCol
  split
  · rw [List.all_eq_true]
    intro c hc
    rcases List.mem_map.mp hc with ⟨e, he, hce⟩
    by_cases hen : e.1 == n
    · rw [if_pos hen] at hce
      rw [← hce]
      rfl
    · rw [if_neg (by simpa using hen)] at hce
      rw [← hce]
      exact List.all_eq_true.mp h e he
  · rw [List.all_append]
    apply Bool.and_eq_true_iff.mpr
    exact ⟨h, by rfl⟩

/-- C2: transform before any fit does NOT fail with a state error: a fresh
simple-strategy instance, given the all-numeric table `{a:[1.0]}`, silently
returns the matrix `[[1.0]]` instead of raising, contradicting the claimed
always-surfaced not-fitted error. -/
theorem C2_transform_before_fit_silently_returns :
    DataProcessor.transform (DataProcessor.init false)
      ⟨[("a", ColData.numeric [some 1])]⟩ = Except.ok [[some 1]] := by decide

/-- C5: fitting the simple strategy on the fully-missing numeric column
`{x:[nan,nan]}` neither raises nor substitutes a fallback: the NaN
placeholders are propagated silently into the returned matrix. -/
theorem C5_full_nan_column_propagates :
    (DataProcessor.fit_transform zeroFillLib (DataProcessor.init false)
      ⟨[("x", ColData.numeric [none, none])]⟩).map (fun r => r.2) =
    Except.ok [[none], [none]] := by decide

/-- C9: fitting the simple strategy on `{x1:[1,2,nan,4,5]}` replaces the
missing cell by the mean of the observed values, exactly 3, in the
returned matrix. -/
theorem C9_simple_mean_imputation :
    (DataProcessor.fit_transform zeroFillLib (DataProcessor.init false) dfC9).map
      (fun r => r.2) =
    Except.ok [[some 1], [some 2], [some 3], [some 4], [some 5]] := by
  have hm : seriesMean [some 1, some 2, none, some 4, some 5] = some 3 := by
    simp [seriesMean]; norm_num
  simp [DataProcessor.fit_transform, DataProcessor.init, dfC9, Frame.columns,
    Frame.select_dtypes_object, simpleImputeStep, Frame.lookup, Frame.setCol,
    hm, ColData.fillna, Frame.valuesF64, ColData.isNumeric, Frame.nrows,
    ColData.length, List.range_succ, except_bind_ok, dictSet, Except.map]

/-- C4 counterexample: fitting on a table whose single column is
categorical with zero observed values (`{c:[nan]}`, object dtype) yields
`OutputSchema = ["c_unknown"]` of length 1, while the claimed width
(numeric columns plus distinct observed categorical values) is 0: the
sentinel `"unknown"` owns an indicator column the claimed formula does not
count. -/
theorem C4_counterexample :
    (DataProcessor.fit_transform zeroFillLib (DataProcessor.init false)
        ⟨[("c", ColData.categorical [none])]⟩).map (fun r => r.1.feature_names_out_) =
      Except.ok (some ["c_unknown"]) ∧
    specClaimedWidth ⟨[("c", ColData.categorical [none])]⟩ = 0 ∧
    ["c_unknown"].length ≠ specClaimedWidth ⟨[("c", ColData.categorical [none])]⟩ := by
  refine ⟨by decide, by decide, by decide⟩

/-- C6 counterexample: fitting on `{c:["B","A"]}` (a frequency tie between
"B" and "A") records fallback "A" — pandas `mode()[0]` takes the smallest
value in sorted order — whereas first-encountered-in-scan order would pick
"B". -/
theorem C6_counterexample :
    (DataProcessor.fit_transform zeroFillLib (DataProcessor.init false)
        ⟨[("c", ColData.categorical [some "B", some "A"])]⟩).map
      (fun r => r.1.imputers_) = Except.ok [("c", PyVal.str "A")] ∧
    specFirstSeenMode [some "B", some "A"] = "B" ∧
    ("A" : String) ≠ "B" := by
  refine ⟨by decide, by decide, by decide⟩

/-- C3 counterexample: fitting on `dfC3X`, whose two categorical columns
generate the same dummy name `c_A_X`, records the duplicated schema
`[c_A_X, c_A_X]` and returns a 2-column matrix, but transforming the
identical table returns a 4-column matrix: the final pandas column
selection returns every column matching each duplicated label. -/
theorem C3_counterexample :
    (DataProcessor.fit_transform zeroFillLib (DataProcessor.init false)
        dfC3X).map (fun r => (r.1.feature_names_out_, r.2)) =
      Except.ok (some ["c_A_X", "c_A_X"], [[some 1, some 1]]) ∧
    ((DataProcessor.fit_transform zeroFillLib (DataProcessor.init false)
        dfC3X).bind (fun r => r.1.transform dfC3X)) =
      Except.ok [[some 1, some 1, some 1, some 1]] ∧
    [[some (1 : ℚ), some 1, some 1, some 1]] ≠ [[some (1 : ℚ), some 1]] := by
  refine ⟨by decide, by decide, by decide⟩

end CausalFlow


namespace CausalFlow

theorem fillna_simpleImputerOf (cd : ColData) :
    cd.fillna (simpleImputerOf cd) = simpleFillCol cd := by
  cases cd <;> rfl

theorem mem_columns_any (f : Frame) (n : String) (h : n ∈ f.columns) :
    f.cols.any (fun e => e.1 == n) = true := by
  rcases List.mem_map.mp h with ⟨e, he, hee⟩
  exact List.any_eq_true.mpr ⟨e, he, by simp [hee]⟩

theorem zeroFillLoop_no_op (names : List String) (d : Frame)
    (h : ∀ n ∈ names, n ∈ d.columns) :
    names.foldl (fun dd c =>
      if dd.cols.any (fun e => e.1 == c) then dd
      else dd.setCol c (ColData.numeric (List.replicate dd.nrows (some 0)))) d = d := by
  induction names with
  | nil => rfl
  | cons n rest ih =>
    rw [List.foldl_cons, if_pos (mem_columns_any d n (h n (List.mem_cons_self n rest)))]
    exact ih (fun m hm => h m (List.mem_cons_of_mem n hm))

theorem missingFilter_nil (names : List String) (d : Frame)
    (h : ∀ n ∈ names, n ∈ d.columns) :
    names.filter (fun c => ¬ d.cols.any (fun e => e.1 == c)) = [] := by
  rw [List.filter_eq_nil_iff]
  intro n hn
  simp [mem_columns_any d n (h n hn)]

theorem project_cons_irrelevant (c : String × ColData) (cs : List (String × ColData))
    (names : List String) (h : c.1 ∉ names) :
    Frame.project ⟨c :: cs⟩ names = Frame.project ⟨cs⟩ names := by
  induction names with
  | nil => rfl
  | cons n rest ih =>
    have hcn : (c.1 == n) = false := beq_eq_false_iff_ne.mpr
      (fun he => h (he ▸ List.mem_cons_self n rest))
    rw [Frame.project, Frame.project]
    have hfilt : (Frame.mk (c :: cs)).cols.filter (fun e => e.1 == n) =
        (Frame.mk cs).cols.filter (fun e => e.1 == n) := by
      show (c :: cs).filter (fun e => e.1 == n) = cs.filter (fun e => e.1 == n)
      rw [List.filter_cons, hcn, if_neg Bool.false_ne_true]
    rw [hfilt, ih (fun hm => h (List.mem_cons_of_mem n hm))]

theorem project_self (d : Frame) (hnd : d.columns.Nodup) :
    d.project d.columns = Except.ok d := by
  cases d with
  | mk cols =>
    induction cols with
    | nil => rfl
    | cons c cs ih =>
      show Frame.project ⟨c :: cs⟩ (c.1 :: cs.map Prod.fst) = Except.ok ⟨c :: cs⟩
      rw [Frame.project]
      have hnd2 := List.nodup_cons.mp (by
        unfold Frame.columns at hnd
        rw [List.map_cons] at hnd
        exact hnd)
      have hfilt : (Frame.mk (c :: cs)).cols.filter (fun e => e.1 == c.1) =
          [c] := by
        show (c :: cs).filter (fun e => e.1 == c.1) = [c]
        rw [List.filter_cons, beq_self_eq_true, if_pos rfl]
        have htail : cs.filter (fun e => e.1 == c.1) = [] := by
          rw [List.filter_eq_nil]
          intro x hx hxc
          exact hnd2.1 (beq_iff_eq.mp hxc ▸ List.mem_map.mpr ⟨x, hx, rfl⟩)
        rw [htail]
      rw [hfilt]
      rw [project_cons_irrelevant c cs (cs.map Prod.fst) hnd2.1]
      have ihh := ih hnd2.2
      unfold Frame.columns at ihh
      rw [ihh]
      rfl

theorem transform_fill_eq_simpleFilled (f : Frame) (hfnd : f.columns.Nodup) :
    Frame.mk (f.cols.map (fun c => match dictGet (simpleImputers f) c.1 with
      | some v => (c.1, c.2.fillna v)
      | none => c)) = simpleFilled f := by
  unfold simpleFilled
  apply congrArg
  apply List.map_congr_left
  intro c hc
  rw [dictGet_simpleImputers f hfnd c hc]
  simp only
  rw [fillna_simpleImputerOf]

theorem transform_fill_eq_catFilled (f : Frame) (hfnd : f.columns.Nodup) :
    Frame.mk (f.cols.map (fun c => if c.1 ∈ f.select_dtypes_object then
      (c.1, c.2.fillna ((dictGet (catImputers f) c.1).getD (PyVal.str "unknown")))
      else c)) = catFilled f := by
  unfold catFilled
  apply congrArg
  apply List.map_congr_left
  intro c hc
  by_cases hmem : c.1 ∈ f.select_dtypes_object
  · rw [if_pos hmem]
    cases hcd : c.2 with
    | numeric vs =>
      exact absurd hmem (not_mem_select_of_numeric f c hc hfnd (by rw [hcd]; rfl))
    | categorical vs =>
      rw [dictGet_catImputers f hfnd c vs hc hcd]
      rfl
  · rw [if_neg hmem]
    cases hcd : c.2 with
    | numeric vs =>
      rw [show catFillCol (ColData.numeric vs) = ColData.numeric vs from rfl, ← hcd]
    | categorical vs =>
      exact absurd (mem_select_of_categorical f c hc (by rw [hcd]; rfl)) hmem

theorem miceModel_transform_mk (names : List String)
    (g : List (List (Option ℚ)) → List (List ℚ)) (x : List (List (Option ℚ))) :
    (MiceModel.mk names g).transform names x = Except.ok (g x) := by
  unfold MiceModel.transform
  rw [if_pos rfl]

/-- C3 (amended): on the same instance, provided the recorded output
schema is duplicate-free (no two encoded training columns share a label),
a transform on the identical training table immediately after fit returns
exactly the fit matrix (both strategies; the external imputer is assumed
consistent between its fit output and a transform on the same input, which
is its documented behavior). -/
theorem C3_fit_then_transform_roundtrip (b : Bool) (lib : MiceLib) (df : Frame)
    (p : DataProcessor) (m0 : List (List (Option ℚ)))
    (Hlib : ∀ names x, (lib.fit_transform names x).1 x = (lib.fit_transform names x).2)
    (hfnd : df.columns.Nodup)
    (houtnd : ∀ outs, p.feature_names_out_ = some outs → outs.Nodup)
    (hfit : DataProcessor.fit_transform lib (DataProcessor.init b) df =
      Except.ok (p, m0)) :
    p.transform df = Except.ok m0 := by
  cases b with
  | false =>
    rw [fit_transform_simple_eq lib df hfnd] at hfit
    injection hfit with h
    injection h with hp hm
    subst hp
    subst hm
    have hkeys : ∀ e ∈ simpleImputers df, e.1 ∈ df.columns := by
      intro e he
      rw [← simpleImputers_keys df]
      exact List.mem_map.mpr ⟨e, he, rfl⟩
    have hknd : ((simpleImputers df).map Prod.fst).Nodup := by
      rw [simpleImputers_keys]
      exact hfnd
    have hfill := fillFromImputers_eq (simpleImputers df) df hknd hkeys hfnd
    rw [transform_fill_eq_simpleFilled df hfnd] at hfill
    unfold DataProcessor.transform DataProcessor.transformFrame
    simp only [Bool.false_eq_true, if_false]
    rw [hfill, except_bind_ok]
    by_cases hsel : df.select_dtypes_object.isEmpty
    · rw [if_pos hsel, except_bind_ok]
      have hnum : (simpleFilled df).cols.all (fun c => c.2.isNumeric) = true := by
        rw [List.all_eq_true]
        intro c hc
        exact simpleFilled_nonselect_numeric df c hc
          (by rw [List.isEmpty_iff.mp hsel]; exact List.not_mem_nil c.1)
      rw [Frame.valuesF64_of_all_numeric _ hnum]
      unfold fitEncodedSimple
      rw [if_pos hsel]
    · rw [if_neg hsel]
      have hE : get_dummies (simpleFilled df) df.select_dtypes_object =
          fitEncodedSimple df := by
        unfold fitEncodedSimple
        rw [if_neg hsel]
      rw [hE]
      have hnd : (fitEncodedSimple df).columns.Nodup := houtnd _ rfl
      have halign : alignToSchema (fitEncodedSimple df).columns (fitEncodedSimple df) =
          Except.ok (fitEncodedSimple df) := by
        show (((fitEncodedSimple df).columns).foldl (fun dd c =>
          if dd.cols.any (fun e => e.1 == c) then dd
          else dd.setCol c (ColData.numeric (List.replicate dd.nrows (some 0))))
          (fitEncodedSimple df)).project (fitEncodedSimple df).columns =
          Except.ok (fitEncodedSimple df)
        rw [zeroFillLoop_no_op _ _ (fun n hn => hn)]
        exact project_self _ hnd
      rw [halign, except_bind_ok]
      rw [Frame.valuesF64_of_all_numeric _ (fitEncodedSimple_all_numeric df)]
  | true =>
    rw [fit_transform_mice_eq lib df hfnd] at hfit
    injection hfit with h
    injection h with hp hm
    subst hp
    subst hm
    have hcnd : df.select_dtypes_object.Nodup := select_nodup df hfnd
    have hsub : ∀ n ∈ df.select_dtypes_object, n ∈ df.columns :=
      fun n hn => mem_columns_of_mem_select df n hn
    have hfill := fillCatsFromImputers_eq (catImputers df) df.select_dtypes_object
      df hcnd hsub hfnd
    rw [transform_fill_eq_catFilled df hfnd] at hfill
    unfold DataProcessor.transform DataProcessor.transformFrame
    simp only [if_true]
    rw [hfill, except_bind_ok]
    by_cases hsel : df.select_dtypes_object.isEmpty
    · rw [if_pos hsel, except_bind_ok]
      have hcatF : catFilled df = fitEncodedMice df := by
        unfold fitEncodedMice
        rw [if_pos hsel]
      rw [hcatF]
      rw [Frame.valuesF64_of_all_numeric _ (fitEncodedMice_all_numeric df),
        except_bind_ok]
      rw [miceModel_transform_mk, except_bind_ok, except_bind_ok, Hlib]
      rw [Frame.valuesF64_of_all_numeric _ (frameOfValues_all_numeric _ _)]
    · rw [if_neg hsel]
      have hE : get_dummies (catFilled df) df.select_dtypes_object =
          fitEncodedMice df := by
        unfold fitEncodedMice
        rw [if_neg hsel]
      rw [hE]
      have hnd : (fitEncodedMice df).columns.Nodup := houtnd _ rfl
      have halign : alignToMice (fitEncodedMice df).columns (fitEncodedMice df) =
          Except.ok (fitEncodedMice df) := by
        show ((((fitEncodedMice df).columns).filter (fun c =>
            ¬ (fitEncodedMice df).cols.any (fun e => e.1 == c))).foldl (fun dd c =>
          dd.setCol c (ColData.numeric (List.replicate dd.nrows (some 0))))
          (fitEncodedMice df)).project (fitEncodedMice df).columns =
          Except.ok (fitEncodedMice df)
        rw [missingFilter_nil _ _ (fun n hn => hn)]
        exact project_self _ hnd
      rw [halign, except_bind_ok]
      rw [Frame.valuesF64_of_all_numeric _ (fitEncodedMice_all_numeric df),
        except_bind_ok]
      rw [miceModel_transform_mk, except_bind_ok, except_bind_ok, Hlib]
      rw [Frame.valuesF64_of_all_numeric _ (frameOfValues_all_numeric _ _)]


theorem C3_fit_then_transform_roundtrip_witness :
    pW.transform dfFitW =
      Except.ok [[some (1 : ℚ), some 0], [some 0, some 1]] :=
  C3_fit_then_transform_roundtrip false zeroFillLib dfFitW pW
    [[some 1, some 0], [some 0, some 1]]
    (fun _ _ => rfl) (by decide)
    (by intro outs h
        injection h with h2
        rw [← h2]
        decide)
    rfl


theorem getD_replicate_of_lt {α : Type} (a d : α) :
    ∀ n i, i < n → (List.replicate n a).getD i d = a
  | 0, i, h => absurd h (Nat.not_lt_zero i)
  | _+1, 0, _ => rfl
  | n+1, i+1, h => getD_replicate_of_lt a d n i (Nat.lt_of_succ_lt_succ h)

theorem filterMap_id_replicate_some {α : Type} (a : α) :
    ∀ n, (List.replicate n (some a)).filterMap id = List.replicate n a
  | 0 => rfl
  | n+1 => by
      show a :: (List.replicate n (some a)).filterMap id = a :: List.replicate n a
      rw [filterMap_id_replicate_some a n]

theorem uniqueFirst_loop_const (a : String) :
    ∀ n, (List.replicate n a).foldl
      (fun acc x => if x ∈ acc then acc else acc ++ [x]) [a] = [a]
  | 0 => rfl
  | n+1 => by
      rw [List.replicate_succ, List.foldl_cons,
        if_pos (List.mem_singleton.mpr rfl)]
      exact uniqueFirst_loop_const a n

theorem uniqueFirst_replicate_succ (a : String) (n : Nat) :
    uniqueFirst (List.replicate (n+1) a) = [a] := by
  unfold uniqueFirst
  rw [List.replicate_succ, List.foldl_cons]
  rw [if_neg (List.not_mem_nil a)]
  exact uniqueFirst_loop_const a n

theorem fillna_cat_of_all_some (vs : List (Option String)) (s : String)
    (h : ∀ v ∈ vs, v.isSome = true) :
    (ColData.categorical vs).fillna (PyVal.str s) = ColData.categorical vs := by
  show ColData.categorical (vs.map (fun c => some (c.getD s))) =
    ColData.categorical vs
  have hp : ∀ c ∈ vs, some (c.getD s) = id c := by
    intro c hc
    cases c with
    | none => exact absurd (h none hc) (by decide)
    | some a => rfl
  rw [List.map_congr_left hp, List.map_id]

theorem string_tag_ne (γ : String) : γ ++ "_" ++ "A" ≠ γ ++ "_" ++ "B" := by
  cases γ with
  | mk l =>
    intro he
    injection he with h2
    have h3 := List.append_cancel_left h2
    exact absurd h3 (by decide)

theorem beq_tag_false (γ : String) :
    ((γ ++ "_" ++ "A") == (γ ++ "_" ++ "B")) = false :=
  beq_eq_false_iff_ne.mpr (string_tag_ne γ)

theorem get_dummies_single (γ : String) (vs : List (Option String)) :
    get_dummies (Frame.mk [(γ, ColData.categorical vs)]) [γ] =
    Frame.mk ((sortStr (uniqueFirst (vs.filterMap id))).map (fun v =>
      (γ ++ "_" ++ v, ColData.numeric (vs.map (fun c =>
        some (if c = some v then (1 : ℚ) else 0)))))) := by
  unfold get_dummies
  congr 1
  have hcont : ([γ].contains γ) = true := by
    rw [List.contains_cons]
    rw [beq_self_eq_true]
    rfl
  have hlook : (Frame.mk [(γ, ColData.categorical vs)]).lookup γ =
      some (ColData.categorical vs) := by
    unfold Frame.lookup
    simp only [List.find?_cons, beq_self_eq_true]
    rfl
  show List.filter _ [(γ, ColData.categorical vs)] ++
    ((match (Frame.mk [(γ, ColData.categorical vs)]).lookup γ with
      | some (ColData.categorical vs2) =>
          (sortStr (uniqueFirst (vs2.filterMap id))).map (fun v =>
            (γ ++ "_" ++ v,
             ColData.numeric (vs2.map (fun c =>
               some (if c = some v then (1 : ℚ) else 0)))))
      | _ => []) ++ []) = _
  rw [hlook]
  rw [List.filter_cons, if_neg (by
    rw [hcont]
    exact fun hx => absurd (of_decide_eq_true hx) (by
      intro hb
      exact hb rfl))]
  rw [List.filter_nil, List.append_nil, List.nil_append]

theorem valuesRows_two_replicate (s t : String) (n : Nat) (a b : Option ℚ) :
    valuesRows (Frame.mk [(s, ColData.numeric (List.replicate n a)),
      (t, ColData.numeric (List.replicate n b))]) = List.replicate n [a, b] := by
  unfold valuesRows
  have hn : (Frame.mk [(s, ColData.numeric (List.replicate n a)),
      (t, ColData.numeric (List.replicate n b))]).nrows = n := by
    show (List.replicate n a).length = n
    exact List.length_replicate n a
  rw [hn]
  refine List.eq_replicate_iff.mpr ⟨by rw [List.length_map, List.length_range], ?_⟩
  intro r hr
  rcases List.mem_map.mp hr with ⟨i, hi, hfi⟩
  have hilt : i < n := List.mem_range.mp hi
  rw [← hfi]
  show [(List.replicate n a).getD i none, (List.replicate n b).getD i none] = [a, b]
  rw [getD_replicate_of_lt a none n i hilt, getD_replicate_of_lt b none n i hilt]

theorem lookup_two_fst (s t : String) (ca cb : ColData) :
    (Frame.mk [(s, ca), (t, cb)]).lookup s = some ca := by
  unfold Frame.lookup
  simp only [List.find?_cons, beq_self_eq_true]
  rfl

theorem lookup_two_snd (s t : String) (ca cb : ColData)
    (hst : (s == t) = false) :
    (Frame.mk [(s, ca), (t, cb)]).lookup t = some cb := by
  unfold Frame.lookup
  simp only [List.find?_cons, hst, beq_self_eq_true]
  rfl

theorem project_two (s t : String) (ca cb : ColData)
    (hst : (s == t) = false) :
    (Frame.mk [(s, ca), (t, cb)]).project [s, t] =
    Except.ok (Frame.mk [(s, ca), (t, cb)]) := by
  have hts : (t == s) = false := by
    rw [beq_eq_false_iff_ne] at hst ⊢
    exact fun he => hst he.symm
  have hf1 : (Frame.mk [(s, ca), (t, cb)]).cols.filter (fun c => c.1 == s) =
      [(s, ca)] := by
    show List.filter (fun c => c.1 == s) [(s, ca), (t, cb)] = [(s, ca)]
    rw [List.filter_cons, beq_self_eq_true, if_pos rfl]
    rw [List.filter_cons, hts, if_neg Bool.false_ne_true, List.filter_nil]
  have hf2 : (Frame.mk [(s, ca), (t, cb)]).cols.filter (fun c => c.1 == t) =
      [(t, cb)] := by
    show List.filter (fun c => c.1 == t) [(s, ca), (t, cb)] = [(t, cb)]
    rw [List.filter_cons, hst, if_neg Bool.false_ne_true]
    rw [List.filter_cons, beq_self_eq_true, if_pos rfl, List.filter_nil]
  rw [Frame.project, hf1, Frame.project, hf2, Frame.project]
  rfl

theorem alignToSchema_two (s t : String) (hst : (s == t) = false)
    (vs : List (Option ℚ)) :
    alignToSchema [s, t] (Frame.mk [(s, ColData.numeric vs)]) =
    Except.ok (Frame.mk [(s, ColData.numeric vs),
      (t, ColData.numeric (List.replicate vs.length (some 0)))]) := by
  have has : (Frame.mk [(s, ColData.numeric vs)]).cols.any
      (fun e => e.1 == s) = true := by
    rw [List.any_cons, List.any_nil, Bool.or_false]
    exact beq_self_eq_true s
  have hat : (Frame.mk [(s, ColData.numeric vs)]).cols.any
      (fun e => e.1 == t) = false := by
    rw [List.any_cons, List.any_nil, Bool.or_false]
    exact hst
  show ((([s, t]).foldl (fun dd c =>
      if dd.cols.any (fun e => e.1 == c) then dd
      else dd.setCol c (ColData.numeric (List.replicate dd.nrows (some 0))))
      (Frame.mk [(s, ColData.numeric vs)]))).project [s, t] = _
  rw [List.foldl_cons, if_pos has, List.foldl_cons, if_neg (by
    rw [hat]
    exact Bool.false_ne_true), List.foldl_nil]
  unfold Frame.setCol
  rw [if_neg (by
    rw [hat]
    exact Bool.false_ne_true)]
  exact project_two s t _ _ hst

theorem alignToMice_two (s t : String) (hst : (s == t) = false)
    (vs : List (Option ℚ)) :
    alignToMice [s, t] (Frame.mk [(s, ColData.numeric vs)]) =
    Except.ok (Frame.mk [(s, ColData.numeric vs),
      (t, ColData.numeric (List.replicate vs.length (some 0)))]) := by
  have has : (Frame.mk [(s, ColData.numeric vs)]).cols.any
      (fun e => e.1 == s) = true := by
    rw [List.any_cons, List.any_nil, Bool.or_false]
    exact beq_self_eq_true s
  have hat : (Frame.mk [(s, ColData.numeric vs)]).cols.any
      (fun e => e.1 == t) = false := by
    rw [List.any_cons, List.any_nil, Bool.or_false]
    exact hst
  have hfilt : ([s, t].filter (fun c =>
      ¬ (Frame.mk [(s, ColData.numeric vs)]).cols.any (fun e => e.1 == c))) =
      [t] := by
    rw [List.filter_cons, List.filter_cons, List.filter_nil]
    rw [if_neg (by
      rw [has]
      exact fun hx => absurd (of_decide_eq_true hx) (fun hb => hb rfl))]
    rw [if_pos (by
      rw [hat]
      exact decide_eq_true (fun hb => Bool.false_ne_true hb))]
  show ((([s, t].filter (fun c =>
      ¬ (Frame.mk [(s, ColData.numeric vs)]).cols.any (fun e => e.1 == c))).foldl
      (fun dd c => dd.setCol c (ColData.numeric (List.replicate dd.nrows (some 0))))
      (Frame.mk [(s, ColData.numeric vs)]))).project [s, t] = _
  rw [hfilt, List.foldl_cons, List.foldl_nil]
  unfold Frame.setCol
  rw [if_neg (by
    rw [hat]
    exact Bool.false_ne_true)]
  exact project_two s t _ _ hst

theorem fitEncodedSimple_single_AB (γ : String) (vsF : List (Option String))
    (hFobs : ∀ v ∈ vsF, v.isSome = true)
    (hcats : sortStr (uniqueFirst (vsF.filterMap id)) = ["A", "B"]) :
    fitEncodedSimple (Frame.mk [(γ, ColData.categorical vsF)]) =
    Frame.mk [(γ ++ "_" ++ "A", ColData.numeric (vsF.map (fun c =>
        some (if c = some "A" then (1 : ℚ) else 0)))),
      (γ ++ "_" ++ "B", ColData.numeric (vsF.map (fun c =>
        some (if c = some "B" then (1 : ℚ) else 0))))] := by
  show get_dummies (simpleFilled (Frame.mk [(γ, ColData.categorical vsF)])) [γ] = _
  have hsf : simpleFilled (Frame.mk [(γ, ColData.categorical vsF)]) =
      Frame.mk [(γ, ColData.categorical vsF)] := by
    show Frame.mk [(γ, (ColData.categorical vsF).fillna
      (PyVal.str (modeOrUnknown vsF)))] = _
    rw [fillna_cat_of_all_some vsF _ hFobs]
  rw [hsf, get_dummies_single, hcats]
  rfl

theorem fitEncodedMice_single_AB (γ : String) (vsF : List (Option String))
    (hFobs : ∀ v ∈ vsF, v.isSome = true)
    (hcats : sortStr (uniqueFirst (vsF.filterMap id)) = ["A", "B"]) :
    fitEncodedMice (Frame.mk [(γ, ColData.categorical vsF)]) =
    Frame.mk [(γ ++ "_" ++ "A", ColData.numeric (vsF.map (fun c =>
        some (if c = some "A" then (1 : ℚ) else 0)))),
      (γ ++ "_" ++ "B", ColData.numeric (vsF.map (fun c =>
        some (if c = some "B" then (1 : ℚ) else 0))))] := by
  show get_dummies (catFilled (Frame.mk [(γ, ColData.categorical vsF)])) [γ] = _
  have hsf : catFilled (Frame.mk [(γ, ColData.categorical vsF)]) =
      Frame.mk [(γ, ColData.categorical vsF)] := by
    show Frame.mk [(γ, (ColData.categorical vsF).fillna
      (PyVal.str (modeOrUnknown vsF)))] = _
    rw [fillna_cat_of_all_some vsF _ hFobs]
  rw [hsf, get_dummies_single, hcats]
  rfl


theorem heapAlloc_get (h : List Frame) (f : Frame) (i : Nat)
    (hi : i < h.length) : (heapAlloc h f).1.get? i = h.get? i :=
  List.get?_append hi

theorem heapAlloc_len (h : List Frame) (f : Frame) :
    (heapAlloc h f).1.length = h.length + 1 := by
  show (h ++ [f]).length = h.length + 1
  rw [List.length_append]
  rfl

theorem heapFitLoop_get
    (step : Frame × List (String × PyVal) → String → Frame × List (String × PyVal)) :
    ∀ (cols : List String) (h : List Frame) (r : Nat)
      (imps : List (String × PyVal)) (i : Nat), i ≠ r →
      ((heapFitLoop step cols h r imps).1).get? i = h.get? i
  | [], _, _, _, _, _ => rfl
  | c :: rest, h, r, imps, i, hne => by
      unfold heapFitLoop
      cases hr : h.get? r with
      | none => rfl
      | some fr =>
        simp only []
        rw [heapFitLoop_get step rest _ r _ i hne]
        exact List.get?_set_ne _ _ (Ne.symm hne)

theorem heapFitLoop_len
    (step : Frame × List (String × PyVal) → String → Frame × List (String × PyVal)) :
    ∀ (cols : List String) (h : List Frame) (r : Nat)
      (imps : List (String × PyVal)),
      ((heapFitLoop step cols h r imps).1).length = h.length
  | [], _, _, _ => rfl
  | c :: rest, h, r, imps => by
      unfold heapFitLoop
      cases hr : h.get? r with
      | none => rfl
      | some fr =>
        simp only []
        rw [heapFitLoop_len step rest _ r _]
        exact List.length_set h r _

theorem fillFromImputersH_get :
    ∀ (imps : List (String × PyVal)) (h : List Frame) (r i : Nat), i ≠ r →
      ((fillFromImputersH imps h r).1).get? i = h.get? i
  | [], _, _, _, _ => rfl
  | e :: rest, h, r, i, hne => by
      unfold fillFromImputersH
      cases hr : h.get? r with
      | none => rfl
      | some fr =>
        simp only []
        cases hl : fr.lookup e.1 with
        | none => rfl
        | some cd =>
          simp only []
          rw [fillFromImputersH_get rest _ r i hne]
          exact List.get?_set_ne _ _ (Ne.symm hne)

theorem fillFromImputersH_len :
    ∀ (imps : List (String × PyVal)) (h : List Frame) (r : Nat),
      ((fillFromImputersH imps h r).1).length = h.length
  | [], _, _ => rfl
  | e :: rest, h, r => by
      unfold fillFromImputersH
      cases hr : h.get? r with
      | none => rfl
      | some fr =>
        simp only []
        cases hl : fr.lookup e.1 with
        | none => rfl
        | some cd =>
          simp only []
          rw [fillFromImputersH_len rest _ r]
          exact List.length_set h r _

theorem fillCatsFromImputersH_get (imps : List (String × PyVal)) :
    ∀ (cats : List String) (h : List Frame) (r i : Nat), i ≠ r →
      ((fillCatsFromImputersH imps cats h r).1).get? i = h.get? i
  | [], _, _, _, _ => rfl
  | col :: rest, h, r, i, hne => by
      unfold fillCatsFromImputersH
      cases hr : h.get? r with
      | none => rfl
      | some fr =>
        simp only []
        cases hl : fr.lookup col with
        | none => rfl
        | some cd =>
          simp only []
          rw [fillCatsFromImputersH_get imps rest _ r i hne]
          exact List.get?_set_ne _ _ (Ne.symm hne)

theorem fillCatsFromImputersH_len (imps : List (String × PyVal)) :
    ∀ (cats : List String) (h : List Frame) (r : Nat),
      ((fillCatsFromImputersH imps cats h r).1).length = h.length
  | [], _, _ => rfl
  | col :: rest, h, r => by
      unfold fillCatsFromImputersH
      cases hr : h.get? r with
      | none => rfl
      | some fr =>
        simp only []
        cases hl : fr.lookup col with
        | none => rfl
        | some cd =>
          simp only []
          rw [fillCatsFromImputersH_len imps rest _ r]
          exact List.length_set h r _

theorem zeroFillLoopH_get :
    ∀ (outs : List String) (h : List Frame) (r i : Nat), i ≠ r →
      (zeroFillLoopH outs h r).get? i = h.get? i
  | [], _, _, _, _ => rfl
  | c :: rest, h, r, i, hne => by
      unfold zeroFillLoopH
      cases hr : h.get? r with
      | none => exact zeroFillLoopH_get rest h r i hne
      | some dd =>
        simp only []
        by_cases hany : dd.cols.any (fun e => e.1 == c) = true
        · rw [if_pos hany]
          exact zeroFillLoopH_get rest h r i hne
        · rw [if_neg hany]
          rw [zeroFillLoopH_get rest _ r i hne]
          exact List.get?_set_ne _ _ (Ne.symm hne)

theorem zeroFillLoopH_len :
    ∀ (outs : List String) (h : List Frame) (r : Nat),
      (zeroFillLoopH outs h r).length = h.length
  | [], _, _ => rfl
  | c :: rest, h, r => by
      unfold zeroFillLoopH
      cases hr : h.get? r with
      | none => exact zeroFillLoopH_len rest h r
      | some dd =>
        simp only []
        by_cases hany : dd.cols.any (fun e => e.1 == c) = true
        · rw [if_pos hany]
          exact zeroFillLoopH_len rest h r
        · rw [if_neg hany]
          rw [zeroFillLoopH_len rest _ r]
          exact List.length_set h r _

theorem zeroFillWritesH_get :
    ∀ (ms : List String) (h : List Frame) (r i : Nat), i ≠ r →
      (zeroFillWritesH ms h r).get? i = h.get? i
  | [], _, _, _, _ => rfl
  | c :: rest, h, r, i, hne => by
      unfold zeroFillWritesH
      cases hr : h.get? r with
      | none => exact zeroFillWritesH_get rest h r i hne
      | some dd =>
        simp only []
        rw [zeroFillWritesH_get rest _ r i hne]
        exact List.get?_set_ne _ _ (Ne.symm hne)

theorem zeroFillWritesH_len :
    ∀ (ms : List String) (h : List Frame) (r : Nat),
      (zeroFillWritesH ms h r).length = h.length
  | [], _, _ => rfl
  | c :: rest, h, r => by
      unfold zeroFillWritesH
      cases hr : h.get? r with
      | none => exact zeroFillWritesH_len rest h r
      | some dd =>
        simp only []
        rw [zeroFillWritesH_len rest _ r]
        exact List.length_set h r _

theorem missingZeroFillH_get (names : List String) (h : List Frame) (r i : Nat)
    (hne : i ≠ r) : (missingZeroFillH names h r).get? i = h.get? i := by
  unfold missingZeroFillH
  cases hr : h.get? r with
  | none => rfl
  | some d => exact zeroFillWritesH_get _ h r i hne

theorem missingZeroFillH_len (names : List String) (h : List Frame) (r : Nat) :
    (missingZeroFillH names h r).length = h.length := by
  unfold missingZeroFillH
  cases hr : h.get? r with
  | none => rfl
  | some d => exact zeroFillWritesH_len _ h r

theorem miceTailH_get (mm : MiceModel) (h : List Frame) (r i : Nat)
    (hi : i < h.length) : ((miceTailH mm h r).1).get? i = h.get? i := by
  unfold miceTailH
  cases hr : h.get? r with
  | none => rfl
  | some processed =>
    simp only []
    cases hv : processed.valuesF64 with
    | error e => rfl
    | ok x =>
      simp only []
      cases ht : mm.transform processed.columns x with
      | error e => rfl
      | ok vals =>
        simp only []
        cases hg : (heapAlloc h (frameOfValues processed.columns vals)).1.get?
            (heapAlloc h (frameOfValues processed.columns vals)).2 with
        | none => exact heapAlloc_get h _ i hi
        | some fin =>
          simp only []
          cases hv2 : fin.valuesF64 with
          | error e => exact heapAlloc_get h _ i hi
          | ok m => exact heapAlloc_get h _ i hi

theorem fitMiceTailH_get (lib : MiceLib) (p : DataProcessor)
    (fin cats : List String) (imps : List (String × PyVal))
    (h : List Frame) (enc : Frame) (i : Nat) (hi : i < h.length) :
    ((fitMiceTailH lib p fin cats imps h enc).1).get? i = h.get? i := by
  unfold fitMiceTailH
  cases hv : enc.valuesF64 with
  | error e => rfl
  | ok x =>
    simp only []
    cases hg : (heapAlloc h (frameOfValues enc.columns
        (lib.fit_transform enc.columns x).2)).1.get?
        (heapAlloc h (frameOfValues enc.columns
          (lib.fit_transform enc.columns x).2)).2 with
    | none => exact heapAlloc_get h _ i hi
    | some processed2 =>
      simp only []
      cases hv2 : processed2.valuesF64 with
      | error e => exact heapAlloc_get h _ i hi
      | ok m => exact heapAlloc_get h _ i hi

theorem fit_transform_heap_preserves (lib : MiceLib) (p : DataProcessor)
    (h : List Frame) (dfRef i : Nat) (hi : i < h.length) :
    ((DataProcessor.fit_transform_heap lib p h dfRef).1).get? i = h.get? i := by
  unfold DataProcessor.fit_transform_heap
  cases hdf : h.get? dfRef with
  | none => rfl
  | some df =>
    simp only []
    have hne1 : i ≠ (heapAlloc h df).2 := Nat.ne_of_lt hi
    have halloc : (heapAlloc h df).1.get? i = h.get? i := heapAlloc_get h df i hi
    have hlen1 : i < (heapAlloc h df).1.length := by
      rw [heapAlloc_len]
      exact Nat.lt_succ_of_lt hi
    cases hmice : p.use_mice with
    | true =>
      simp only [if_true]
      have hloopget : ((heapFitLoop miceCatFitStep df.select_dtypes_object
          (heapAlloc h df).1 (heapAlloc h df).2 p.imputers_).1).get? i =
          h.get? i := by
        rw [heapFitLoop_get miceCatFitStep _ _ _ _ i hne1]
        exact halloc
      have hlooplen : i < ((heapFitLoop miceCatFitStep df.select_dtypes_object
          (heapAlloc h df).1 (heapAlloc h df).2 p.imputers_).1).length := by
        rw [heapFitLoop_len]
        exact hlen1
      cases hg : (heapFitLoop miceCatFitStep df.select_dtypes_object
          (heapAlloc h df).1 (heapAlloc h df).2 p.imputers_).1.get?
          (heapAlloc h df).2 with
      | none => exact hloopget
      | some filled =>
        simp only []
        by_cases hcats : df.select_dtypes_object.isEmpty = true
        · rw [if_pos hcats]
          rw [fitMiceTailH_get lib p _ _ _ _ filled i hlooplen]
          exact hloopget
        · rw [if_neg hcats]
          have halloc2 : ((heapAlloc (heapFitLoop miceCatFitStep
              df.select_dtypes_object (heapAlloc h df).1 (heapAlloc h df).2
              p.imputers_).1 (get_dummies filled
                df.select_dtypes_object)).1).get? i = h.get? i := by
            rw [heapAlloc_get _ _ i hlooplen]
            exact hloopget
          have hlen2 : i < ((heapAlloc (heapFitLoop miceCatFitStep
              df.select_dtypes_object (heapAlloc h df).1 (heapAlloc h df).2
              p.imputers_).1 (get_dummies filled
                df.select_dtypes_object)).1).length := by
            rw [heapAlloc_len]
            exact Nat.lt_succ_of_lt hlooplen
          cases hg2 : (heapAlloc (heapFitLoop miceCatFitStep
              df.select_dtypes_object (heapAlloc h df).1 (heapAlloc h df).2
              p.imputers_).1 (get_dummies filled
                df.select_dtypes_object)).1.get? (heapAlloc (heapFitLoop
              miceCatFitStep df.select_dtypes_object (heapAlloc h df).1
              (heapAlloc h df).2 p.imputers_).1 (get_dummies filled
                df.select_dtypes_object)).2 with
          | none => exact halloc2
          | some enc =>
            simp only []
            rw [fitMiceTailH_get lib p _ _ _ _ enc i hlen2]
            exact halloc2
    | false =>
      simp only [Bool.false_eq_true, if_false]
      have hloopget : ((heapFitLoop simpleImputeStep df.columns
          (heapAlloc h df).1 (heapAlloc h df).2 p.imputers_).1).get? i =
          h.get? i := by
        rw [heapFitLoop_get simpleImputeStep _ _ _ _ i hne1]
        exact halloc
      have hlooplen : i < ((heapFitLoop simpleImputeStep df.columns
          (heapAlloc h df).1 (heapAlloc h df).2 p.imputers_).1).length := by
        rw [heapFitLoop_len]
        exact hlen1
      cases hg : (heapFitLoop simpleImputeStep df.columns
          (heapAlloc h df).1 (heapAlloc h df).2 p.imputers_).1.get?
          (heapAlloc h df).2 with
      | none => exact hloopget
      | some filled =>
        simp only []
        by_cases hcats : df.select_dtypes_object.isEmpty = true
        · rw [if_pos hcats]
          cases hv : filled.valuesF64 with
          | error e => exact hloopget
          | ok m => exact hloopget
        · rw [if_neg hcats]
          have halloc2 : ((heapAlloc (heapFitLoop simpleImputeStep df.columns
              (heapAlloc h df).1 (heapAlloc h df).2 p.imputers_).1
              (get_dummies filled df.select_dtypes_object)).1).get? i =
              h.get? i := by
            rw [heapAlloc_get _ _ i hlooplen]
            exact hloopget
          cases hg2 : (heapAlloc (heapFitLoop simpleImputeStep df.columns
              (heapAlloc h df).1 (heapAlloc h df).2 p.imputers_).1
              (get_dummies filled df.select_dtypes_object)).1.get?
              (heapAlloc (heapFitLoop simpleImputeStep df.columns
                (heapAlloc h df).1 (heapAlloc h df).2 p.imputers_).1
                (get_dummies filled df.select_dtypes_object)).2 with
          | none => exact halloc2
          | some enc =>
            simp only []
            cases hv : enc.valuesF64 with
            | error e => exact halloc2
            | ok m => exact halloc2

theorem transform_heap_preserves (p : DataProcessor) (h : List Frame)
    (dfRef i : Nat) (hi : i < h.length) :
    ((DataProcessor.transform_heap p h dfRef).1).get? i = h.get? i := by
  unfold DataProcessor.transform_heap
  cases hdf : h.get? dfRef with
  | none => rfl
  | some df =>
    simp only []
    have hne1 : i ≠ (heapAlloc h df).2 := Nat.ne_of_lt hi
    have halloc : (heapAlloc h df).1.get? i = h.get? i := heapAlloc_get h df i hi
    have hlen1 : i < (heapAlloc h df).1.length := by
      rw [heapAlloc_len]
      exact Nat.lt_succ_of_lt hi
    cases hmice : p.use_mice with
    | true =>
      simp only [if_true]
      cases hfill : fillCatsFromImputersH p.imputers_ p.categorical_columns_
          (heapAlloc h df).1 (heapAlloc h df).2 with
      | mk h2 res =>
        have hh2get : h2.get? i = h.get? i := by
          have hthis := fillCatsFromImputersH_get p.imputers_
            p.categorical_columns_ (heapAlloc h df).1 (heapAlloc h df).2 i hne1
          rw [hfill] at hthis
          rw [← hthis] at halloc
          exact halloc
        have hh2len : i < h2.length := by
          have hthis := fillCatsFromImputersH_len p.imputers_
            p.categorical_columns_ (heapAlloc h df).1 (heapAlloc h df).2
          rw [hfill] at hthis
          show i < (h2, res).1.length
          rw [hthis]
          exact hlen1
        cases res with
        | error e => exact hh2get
        | ok u =>
          simp only []
          by_cases hcats : p.categorical_columns_.isEmpty = true
          · rw [if_pos hcats]
            cases hm : p.mice_imputer_ with
            | none => exact hh2get
            | some mm =>
              rw [miceTailH_get mm h2 (heapAlloc h df).2 i hh2len]
              exact hh2get
          · rw [if_neg hcats]
            cases hg : h2.get? (heapAlloc h df).2 with
            | none => exact hh2get
            | some processed =>
              simp only []
              cases hm : p.mice_imputer_ with
              | none =>
                rw [heapAlloc_get h2 _ i hh2len]
                exact hh2get
              | some mm =>
                simp only []
                have halloc2 : ((heapAlloc h2 (get_dummies processed
                    p.categorical_columns_)).1).get? i = h.get? i := by
                  rw [heapAlloc_get h2 _ i hh2len]
                  exact hh2get
                have hne2 : i ≠ (heapAlloc h2 (get_dummies processed
                    p.categorical_columns_)).2 := Nat.ne_of_lt hh2len
                have hlen2 : i < ((heapAlloc h2 (get_dummies processed
                    p.categorical_columns_)).1).length := by
                  rw [heapAlloc_len]
                  exact Nat.lt_succ_of_lt hh2len
                have hmzget : (missingZeroFillH mm.feature_names_in_
                    (heapAlloc h2 (get_dummies processed
                      p.categorical_columns_)).1
                    (heapAlloc h2 (get_dummies processed
                      p.categorical_columns_)).2).get? i = h.get? i := by
                  rw [missingZeroFillH_get _ _ _ i hne2]
                  exact halloc2
                have hmzlen : i < (missingZeroFillH mm.feature_names_in_
                    (heapAlloc h2 (get_dummies processed
                      p.categorical_columns_)).1
                    (heapAlloc h2 (get_dummies processed
                      p.categorical_columns_)).2).length := by
                  rw [missingZeroFillH_len]
                  exact hlen2
                cases hg2 : (missingZeroFillH mm.feature_names_in_
                    (heapAlloc h2 (get_dummies processed
                      p.categorical_columns_)).1
                    (heapAlloc h2 (get_dummies processed
                      p.categorical_columns_)).2).get?
                    (heapAlloc h2 (get_dummies processed
                      p.categorical_columns_)).2 with
                | none => exact hmzget
                | some d2 =>
                  simp only []
                  cases hproj : d2.project mm.feature_names_in_ with
                  | error e => exact hmzget
                  | ok proj =>
                    simp only []
                    rw [miceTailH_get mm _ _ i (by
                      rw [heapAlloc_len]
                      exact Nat.lt_succ_of_lt hmzlen)]
                    rw [heapAlloc_get _ _ i hmzlen]
                    exact hmzget
    | false =>
      simp only [Bool.false_eq_true, if_false]
      cases hfill : fillFromImputersH p.imputers_
          (heapAlloc h df).1 (heapAlloc h df).2 with
      | mk h2 res =>
        have hh2get : h2.get? i = h.get? i := by
          have hthis := fillFromImputersH_get p.imputers_
            (heapAlloc h df).1 (heapAlloc h df).2 i hne1
          rw [hfill] at hthis
          rw [← hthis] at halloc
          exact halloc
        have hh2len : i < h2.length := by
          have hthis := fillFromImputersH_len p.imputers_
            (heapAlloc h df).1 (heapAlloc h df).2
          rw [hfill] at hthis
          show i < (h2, res).1.length
          rw [hthis]
          exact hlen1
        cases res with
        | error e => exact hh2get
        | ok u =>
          simp only []
          cases hg : h2.get? (heapAlloc h df).2 with
          | none => exact hh2get
          | some processed =>
            simp only []
            by_cases hcats : p.categorical_columns_.isEmpty = true
            · rw [if_pos hcats]
              exact hh2get
            · rw [if_neg hcats]
              cases hout : p.feature_names_out_ with
              | none =>
                rw [heapAlloc_get h2 _ i hh2len]
                exact hh2get
              | some outs =>
                simp only []
                have halloc2 : ((heapAlloc h2 (get_dummies processed
                    p.categorical_columns_)).1).get? i = h.get? i := by
                  rw [heapAlloc_get h2 _ i hh2len]
                  exact hh2get
                have hne2 : i ≠ (heapAlloc h2 (get_dummies processed
                    p.categorical_columns_)).2 := Nat.ne_of_lt hh2len
                have hlen2 : i < ((heapAlloc h2 (get_dummies processed
                    p.categorical_columns_)).1).length := by
                  rw [heapAlloc_len]
                  exact Nat.lt_succ_of_lt hh2len
                have hzget : (zeroFillLoopH outs
                    (heapAlloc h2 (get_dummies processed
                      p.categorical_columns_)).1
                    (heapAlloc h2 (get_dummies processed
                      p.categorical_columns_)).2).get? i = h.get? i := by
                  rw [zeroFillLoopH_get _ _ _ i hne2]
                  exact halloc2
                have hzlen : i < (zeroFillLoopH outs
                    (heapAlloc h2 (get_dummies processed
                      p.categorical_columns_)).1
                    (heapAlloc h2 (get_dummies processed
                      p.categorical_columns_)).2).length := by
                  rw [zeroFillLoopH_len]
                  exact hlen2
                cases hg2 : (zeroFillLoopH outs
                    (heapAlloc h2 (get_dummies processed
                      p.categorical_columns_)).1
                    (heapAlloc h2 (get_dummies processed
                      p.categorical_columns_)).2).get?
                    (heapAlloc h2 (get_dummies processed
                      p.categorical_columns_)).2 with
                | none => exact hzget
                | some d2 =>
                  simp only []
                  cases hproj : d2.project outs with
                  | error e => exact hzget
                  | ok proj =>
                    simp only []
                    cases hg3 : (heapAlloc (zeroFillLoopH outs
                        (heapAlloc h2 (get_dummies processed
                          p.categorical_columns_)).1
                        (heapAlloc h2 (get_dummies processed
                          p.categorical_columns_)).2) proj).1.get?
                        (heapAlloc (zeroFillLoopH outs
                          (heapAlloc h2 (get_dummies processed
                            p.categorical_columns_)).1
                          (heapAlloc h2 (get_dummies processed
                            p.categorical_columns_)).2) proj).2 with
                    | none =>
                      rw [heapAlloc_get _ _ i hzlen]
                      exact hzget
                    | some fin =>
                      rw [heapAlloc_get _ _ i hzlen]
                      exact hzget

/-- C10: neither fit_transform nor transform mutates the caller's input
table: in the heap model where `df.copy()`, `pd.get_dummies` and
`pd.DataFrame` allocate fresh cells and every in-place column write goes
through such a fresh reference, every pre-existing heap cell — in
particular the caller's input frame, missing cells included — is unchanged
after either call, for any instance state and either strategy. -/
theorem C10_no_input_table_mutation (lib : MiceLib) (p : DataProcessor)
    (h : List Frame) (dfRef i : Nat) (hi : i < h.length) :
    ((DataProcessor.fit_transform_heap lib p h dfRef).1).get? i = h.get? i ∧
    ((DataProcessor.transform_heap p h dfRef).1).get? i = h.get? i :=
  ⟨fit_transform_heap_preserves lib p h dfRef i hi,
   transform_heap_preserves p h dfRef i hi⟩

theorem C10_no_input_table_mutation_witness :
    ((DataProcessor.fit_transform_heap zeroFillLib pW [dfFitW] 0).1).get? 0 =
      [dfFitW].get? 0 ∧
    ((DataProcessor.transform_heap pW [dfFitW] 0).1).get? 0 =
      [dfFitW].get? 0 :=
  C10_no_input_table_mutation zeroFillLib pW [dfFitW] 0 0 (by decide)

end CausalFlow
